import Mathlib

/-!
Verification of the ticket-hierarchy traversal scripts
(src/jira_ticket_hierarchy.py and src/azure_generation_script.py).

The scripts are shallowly embedded: Python dictionaries parsed from JSON
bodies become the `Json` inductive; Python's partial dictionary operations
(`d[k]`, `d.get`, `in`, implicit `str` concatenation) become functions into
`Except String` whose error values model uncaught Python exceptions
(KeyError, AttributeError, TypeError, JSONDecodeError).  The two recursive
traversal drivers are embedded with an explicit fuel parameter; the proofs
show that a fuel of one more than the number of candidate keys is always
enough, which is the termination argument of the Python recursion.
Module-level mutable state (caches, visited sets, hierarchy dictionaries)
is threaded explicitly through a state record; the state additionally
records the list of network requests issued and nothing else, so that the
fetch-count properties can be stated.
-/

/-- A JSON value, the shape of every tracker response body. -/
inductive Json where
  | null
  | str (s : String)
  | num (n : Int)
  | bool (b : Bool)
  | arr (xs : List Json)
  | obj (kvs : List (String × Json))

/-- Python truthiness of a JSON value: None, empty string, zero, empty list
and empty dict are falsy. -/
def Json.truthy : Json → Bool
  | .null => false
  | .str s => !s.toList.isEmpty
  | .num n => n != 0
  | .bool b => b
  | .arr xs => !xs.isEmpty
  | .obj kvs => !kvs.isEmpty

/-- Python equality of a JSON value against a string literal: true exactly
when the value is that string (comparison of a string with any other type
is False in Python, never an error). -/
def Json.isStrEq (j : Json) (s : String) : Bool :=
  match j with
  | .str t => t == s
  | _ => false

/-- Result of evaluating an embedded Python expression: an uncaught Python
exception is modelled by the error case. -/
abbrev Py (α : Type) := Except String α

/-- Whether an embedded Python expression evaluated without an exception. -/
def pyOk {α : Type} : Py α → Bool
  | .ok _ => true
  | .error _ => false

/-- Python's d.get(k, default): AttributeError when the receiver is not a
dictionary, otherwise the value stored at the first matching key or the
default. -/
def pyGet (j : Json) (k : String) (d : Json) : Py Json :=
  match j with
  | .obj kvs => .ok ((List.lookup k kvs).getD d)
  | _ => .error "AttributeError: get"

/-- Python's d[k]: KeyError when the key is missing, TypeError when the
receiver is not a dictionary. -/
def pyIndex (j : Json) (k : String) : Py Json :=
  match j with
  | .obj kvs =>
    match List.lookup k kvs with
    | some v => .ok v
    | none => .error ("KeyError: " ++ k)
  | _ => .error "TypeError: not subscriptable"

/-- Whether the first character list is an initial segment of the second. -/
def listStarts : List Char → List Char → Bool
  | [], _ => true
  | _ :: _, [] => false
  | a :: as, b :: bs => a == b && listStarts as bs

/-- Whether the first character list occurs contiguously in the second,
Python's substring membership `a in b`. -/
def listHasSub (needle : List Char) : List Char → Bool
  | [] => listStarts needle []
  | b :: bs => listStarts needle (b :: bs) || listHasSub needle bs

/-- Python's `k in j` for a string k: key membership for dictionaries,
substring test for strings, element equality for lists. -/
def pyContains (j : Json) (k : String) : Py Bool :=
  match j with
  | .obj kvs => .ok (kvs.any (fun p => p.1 == k))
  | .str s => .ok (listHasSub k.toList s.toList)
  | .arr xs => .ok (xs.any (fun x => x.isStrEq k))
  | _ => .error "TypeError: not iterable"

/-- Iterating a JSON value in a for-loop; the scripts only ever iterate
lists, so any other shape is modelled as a TypeError. -/
def pyList (j : Json) : Py (List Json) :=
  match j with
  | .arr xs => .ok xs
  | _ => .error "TypeError: not iterable"

/-- Implicit str() requirement of Python string concatenation: TypeError
unless the value is a string. -/
def pyStr (j : Json) : Py String :=
  match j with
  | .str s => .ok s
  | _ => .error "TypeError: can only concatenate str"

/-- Python's `x or y` on a JSON value. -/
def pyOr (x y : Json) : Json := if x.truthy then x else y

/-- Python's `x or y` where x may be None (the Option models a Python value
that can be None, as returned by find_key_containing). -/
def pyOrOpt (x : Option Json) (y : Json) : Json :=
  match x with
  | some v => pyOr v y
  | none => y

/-- ASCII lower-casing of one character, Python's str.lower restricted to
ASCII. -/
def charLower (c : Char) : Char :=
  if c.isUpper then Char.ofNat (c.toNat + 32) else c

/-- Python's s.lower() restricted to ASCII case folding. -/
def strLower (s : String) : String :=
  String.mk (s.toList.map charLower)

/-- Case-insensitive substring test, Python's `a.lower() in b.lower()`
(restricted to ASCII case folding). -/
def strContainsCI (key term : String) : Bool :=
  listHasSub (strLower term).toList (strLower key).toList

/-- Python's str.isdigit restricted to ASCII digits: nonempty and all
characters are decimal digits. -/
def isDigits (s : String) : Bool :=
  !s.toList.isEmpty && s.toList.all Char.isDigit

/-- Python's s.strip(): remove leading and trailing whitespace. -/
def strStrip (s : String) : String :=
  String.mk (((s.toList.dropWhile Char.isWhitespace).reverse.dropWhile
    Char.isWhitespace).reverse)

/-- Splitting a character list at every occurrence of a separator,
Python's s.split(sep) for a one-character separator. -/
def splitChar (sep : Char) : List Char → List (List Char)
  | [] => [[]]
  | c :: rest =>
    let r := splitChar sep rest
    if c == sep then [] :: r
    else
      match r with
      | [] => [[c]]
      | h :: t => (c :: h) :: t

/-- Python's s.split(sep) on strings, for a one-character separator. -/
def strSplit (s : String) (sep : Char) : List String :=
  (splitChar sep s.toList).map String.mk

/-- The last component of Python's s.split('/'), i.e. s.split('/')[-1]
(the split list is never empty). -/
def lastSplit (s : String) (sep : Char) : String :=
  (strSplit s sep).getLastD ""

/-- Python dict assignment d[k] = v: replace the value in place when the
key exists, append a new entry otherwise (dictionaries keep insertion
order). -/
def dictSet {α β : Type} [BEq α] (d : List (α × β)) (k : α) (v : β) : List (α × β) :=
  if d.any (fun p => p.1 == k) then d.map (fun p => if p.1 == k then (k, v) else p)
  else d ++ [(k, v)]

/-- Model of BeautifulSoup(raw, "html.parser").get_text(separator=" ").strip()
from clean_html (src/azure_generation_script.py lines 57-61): every
well-formed tag region between angle brackets is replaced by the separator
and the result is stripped of surrounding whitespace.  On markup-free input
this is the identity up to stripping, which is the only behaviour the
verified claims rely on. -/
def stripTags : List Char → Bool → List Char
  | [], _ => []
  | c :: rest, true => if c = '>' then stripTags rest false else stripTags rest true
  | c :: rest, false => if c = '<' then ' ' :: stripTags rest true else c :: stripTags rest false

/-- Remove HTML tags from the raw HTML string (clean_html). -/
def clean_html (raw : String) : String :=
  strStrip (String.mk (stripTags raw.toList false))

/-! ## Jira script (src/jira_ticket_hierarchy.py) -/

/-- One HTTP response of the Jira instance: the status code, and the parsed
JSON body, with none standing for a body on which response.json() raises
JSONDecodeError. -/
structure JiraResp where
  status : Nat
  body? : Option Json

/-- The Jira instance seen by one run: the finitely many issue keys it
serves, each with its response.  A key outside the list is served a 404
whose body does not parse. -/
abbrev JiraEnv := List (String × JiraResp)

/-- Response of the Jira instance for one ticket key. -/
def jiraResp (env : JiraEnv) (key : String) : JiraResp :=
  (List.lookup key env).getD ⟨404, none⟩

/-- The parsed body the Jira instance serves for a key, if it parses. -/
def jiraEnvBody (env : JiraEnv) (key : String) : Option Json :=
  (jiraResp env key).body?

/-- The module-level mutable state of the Jira script (ticket_cache,
visited_tickets, ticket_hierarchy), plus the list of keys for which a
network request was actually issued (one entry per requests.get call made
by get_ticket_data). -/
structure JiraState where
  cache : List (String × Json)
  visited : List String
  hierarchy : List (String × List String)
  calls : List String

/-- State at program start: all three module-level containers empty. -/
def initJiraState : JiraState := ⟨[], [], [], []⟩

/-- Fetches Jira ticket data and caches the result
(get_ticket_data, lines 122-150).  The cache is consulted first; on a miss
one network request is issued and the parsed body — whatever the status
code — is cached and returned; only a body that fails to parse yields None. -/
def get_ticket_data (env : JiraEnv) (key : String) (st : JiraState) :
    Option Json × JiraState :=
  match List.lookup key st.cache with
  | some j => (some j, st)
  | none =>
    let st1 := { st with calls := st.calls ++ [key] }
    match (jiraResp env key).body? with
    | some j => (some j, { st1 with cache := st1.cache ++ [(key, j)] })
    | none => (none, st1)

/-- The normalized fields of one ticket_info record, without the key. -/
structure NormFields where
  summary : Json
  description : Json
  status : Json
  acceptance_criteria : Json
  comments : List Json

/-- One ticket_info dictionary produced by collect_ticket_information. -/
structure TicketInfo where
  key : String
  summary : Json
  description : Json
  status : Json
  acceptance_criteria : Json
  comments : List Json

/-- Field extraction of collect_ticket_information (lines 173-185):
ticket_data['fields'] is a bracket access (KeyError when absent), each
field below it degrades to its placeholder via .get, status is read
through a nested .get, and each comment body is a bracket access. -/
def jiraNormalize (td : Json) : Py NormFields := do
  let fieldsJ ← pyIndex td "fields"
  let summary ← pyGet fieldsJ "summary" (.str "No summary available")
  let description ← pyGet fieldsJ "description" (.str "No description available")
  let statusObj ← pyGet fieldsJ "status" (.obj [])
  let status ← pyGet statusObj "name" (.str "No status available")
  let ac ← pyGet fieldsJ "customfield_10000" (.str "No acceptance criteria available")
  let commentC ← pyGet fieldsJ "comment" (.obj [])
  let commentsJ ← pyGet commentC "comments" (.arr [])
  let comments ←
    if commentsJ.truthy then do
      let xs ← pyList commentsJ
      xs.mapM (fun c => pyIndex c "body")
    else pure []
  pure ⟨summary, description, status, ac, comments⟩

/-- Linked-issue extraction of collect_ticket_information (lines 188-199)
before the parent comparison: each link contributes its inwardIssue key,
or else its outwardIssue key, in list order.  Ticket keys are modelled as
strings, so a non-string key field is modelled as a fault. -/
def jiraLinkKeys (td : Json) : Py (List String) := do
  let fieldsJ ← pyIndex td "fields"
  let linksJ ← pyGet fieldsJ "issuelinks" (.arr [])
  let links ← pyList linksJ
  links.foldlM
    (fun acc link => do
      let hin ← pyContains link "inwardIssue"
      if hin then do
        let inw ← pyIndex link "inwardIssue"
        let k ← pyStr (← pyIndex inw "key")
        pure (acc ++ [k])
      else
        let hout ← pyContains link "outwardIssue"
        if hout then do
          let outw ← pyIndex link "outwardIssue"
          let k ← pyStr (← pyIndex outw "key")
          pure (acc ++ [k])
        else pure acc)
    []

/-- A run outcome other than normal return: an uncaught Python exception,
or exhaustion of the fuel that bounds the modelled recursion depth. -/
inductive RunErr where
  | py (msg : String)
  | fuelOut

/-- Sequential recursion over the linked issues of one ticket
(the for-loop of lines 205-207), accumulating the returned ticket_info
lists with extend. -/
def runChildren (step : String → JiraState → Except RunErr (List TicketInfo × JiraState)) :
    List String → JiraState → Except RunErr (List TicketInfo × JiraState)
  | [], st => .ok ([], st)
  | c :: cs, st =>
    match step c st with
    | .error e => .error e
    | .ok (xs, st1) =>
      match runChildren step cs st1 with
      | .error e => .error e
      | .ok (ys, st2) => .ok (xs ++ ys, st2)

/-- Recursively collects detailed information for a Jira ticket and its
linked issues (collect_ticket_information, lines 152-209), with fuel
bounding the recursion depth.  The visited guard returns [] at once; the
key is then marked visited, fetched, and skipped when the fetch returned
None or a falsy body; fields are normalized; linked issues other than the
discovering parent are recorded in the hierarchy (only when nonempty) and
recursed into. -/
def collectTicketInfo (env : JiraEnv) :
    Nat → String → Option String → JiraState → Except RunErr (List TicketInfo × JiraState)
  | 0, _, _, _ => .error .fuelOut
  | fuel + 1, key, parent, st =>
    if key ∈ st.visited then .ok ([], st)
    else
      let st1 := { st with visited := st.visited ++ [key] }
      match get_ticket_data env key st1 with
      | (none, st2) => .ok ([], st2)
      | (some td, st2) =>
        if td.truthy then
          match jiraNormalize td with
          | .error e => .error (.py e)
          | .ok nf =>
            match jiraLinkKeys td with
            | .error e => .error (.py e)
            | .ok ks =>
              let linked := ks.filter (fun c => !(some c == parent))
              let st3 := { st2 with hierarchy :=
                (match linked with
                 | [] => st2.hierarchy
                 | _ :: _ => dictSet st2.hierarchy key linked) }
              match runChildren (fun c s => collectTicketInfo env fuel c (some key) s) linked st3 with
              | .error e => .error e
              | .ok (childInfos, st4) =>
                .ok (⟨key, nf.summary, nf.description, nf.status, nf.acceptance_criteria,
                       nf.comments⟩ :: childInfos, st4)
        else .ok ([], st2)

/-- Keys a body can put on the recursion worklist, with a failed link
extraction contributing nothing (such a run faults before recursing). -/
def jiraBodyLinks (j : Json) : List String :=
  match jiraLinkKeys j with
  | .ok ks => ks
  | .error _ => []

/-- Every key the Jira traversal can ever visit: the root plus every key
occurring in a link of any body the instance can serve. -/
def jiraUniverse (env : JiraEnv) (root : String) : List String :=
  root :: env.foldr (fun e acc =>
    (match e.2.body? with
     | some j => jiraBodyLinks j
     | none => []) ++ acc) []

/-- Fuel that the termination theorem proves sufficient. -/
def jiraFuel (env : JiraEnv) (root : String) : Nat :=
  (jiraUniverse env root).length + 1

/-- Entry point of the Jira script's step 3 (line 263): the recursive
collection starting from the extracted root key with fresh module state. -/
def jiraRun (env : JiraEnv) (root : String) : Except RunErr (List TicketInfo × JiraState) :=
  collectTicketInfo env (jiraFuel env root) root none initJiraState

/-- What processing a key leads to, as determined by the instance alone:
some links exactly when the served body parses, is truthy, and its links
extract without fault. -/
def jiraSucc (env : JiraEnv) (key : String) : Option (List String) :=
  match jiraEnvBody env key with
  | some b =>
    if b.truthy then
      match jiraLinkKeys b with
      | .ok ks => some ks
      | .error _ => none
    else none
  | none => none

/-- The ticket keys reachable from the root through links of successfully
fetched, truthy, well-formed bodies. -/
inductive JiraReach (env : JiraEnv) (root : String) : String → Prop where
  | root : JiraReach env root root
  | step {k c : String} {ks : List String} :
      JiraReach env root k → jiraSucc env k = some ks → c ∈ ks → JiraReach env root c

/-- A served body is well formed: when truthy, its fields normalize and its
links extract without an uncaught exception. -/
def jiraTicketOK (b : Json) : Bool :=
  !b.truthy || (pyOk (jiraNormalize b) && pyOk (jiraLinkKeys b))

/-- The whole instance serves only well-formed bodies. -/
def jiraEnvWF (env : JiraEnv) : Bool :=
  env.all (fun e =>
    match e.2.body? with
    | some b => jiraTicketOK b
    | none => true)

/-! ## Azure script (src/azure_generation_script.py) -/

/-- One HTTP response of the Azure DevOps organization: status code and
parsed JSON body (none when response.json() would raise JSONDecodeError). -/
structure AzResp where
  status : Nat
  body? : Option Json

/-- The Azure organization seen by one run: a response per
(project, work-item id) pair actually served; any other pair is served a
404. -/
abbrev AzEnv := List ((String × String) × AzResp)

/-- Response for the work-item URL of one project and id. -/
def azResp (env : AzEnv) (proj id : String) : AzResp :=
  (List.lookup (proj, id) env).getD ⟨404, none⟩

/-- The state threaded through the Azure traversal: the four dictionaries
and sets created at the start of collect_work_item_descriptions_and_hierarchy
(fetched_work_items, visited_ids, work_item_map, hierarchy), plus the list
of (project, id) pairs for which a network request was issued. -/
structure AzState where
  cache : List (String × Json)
  visited : List String
  work_item_map : List (String × String)
  hierarchy : List (Option String × List String)
  calls : List (String × String)

/-- Fresh state for a run started with all keyword arguments defaulted. -/
def initAzState : AzState := ⟨[], [], [], [], []⟩

/-- Retrieve JSON data for a specific work item with caching
(get_json_of_workItem_using_azureDevops_restApis, lines 44-55): a cached id
is answered without a request; otherwise one request is issued, a 200
response has its body parsed (an unparseable 200 body raises
JSONDecodeError, uncaught), cached and returned, and any other status
returns None without caching. -/
def azFetch (env : AzEnv) (proj id : String) (st : AzState) :
    Py (Option Json × AzState) :=
  match List.lookup id st.cache with
  | some j => .ok (some j, st)
  | none =>
    let st1 := { st with calls := st.calls ++ [(proj, id)] }
    if (azResp env proj id).status == 200 then
      match (azResp env proj id).body? with
      | some j => .ok (some j, { st1 with cache := st1.cache ++ [(id, j)] })
      | none => .error "JSONDecodeError"
    else .ok (none, st1)

/-- Find the first key in fields that contains the search term
(find_key_containing, lines 63-68), with the case-insensitive substring
comparison of line 66; iterating .items() of a non-dictionary faults. -/
def find_key_containing (fields : Json) (search_term : String) : Py (Option Json) :=
  match fields with
  | .obj kvs => .ok (findCI kvs search_term)
  | _ => .error "AttributeError: items"
where
  findCI : List (String × Json) → String → Option Json
    | [], _ => none
    | (k, v) :: rest, term => if strContainsCI k term then some v else findCI rest term

/-- The description string built for one work item from its fields
dictionary (lines 95-110): repro steps for Bug, steps for Test Case,
otherwise the general description plus acceptance criteria when present.
String concatenation with a non-string field value faults, as in Python. -/
def azDescribe (fields : Json) : Py String := do
  let ty ← pyGet fields "System.WorkItemType" (.str "No type available")
  if ty.isStrEq "Bug" then do
    let v ← find_key_containing fields "ReproSteps"
    let s ← pyStr (pyOrOpt v (.str "No Repro Steps available"))
    pure ("Repro Steps: " ++ s)
  else if ty.isStrEq "Test Case" then do
    let v ← find_key_containing fields "Steps"
    let s ← pyStr (pyOrOpt v (.str "No Steps available"))
    pure ("Steps: " ++ s)
  else do
    let d ← pyStr (← pyGet fields "System.Description" (.str "No description available"))
    let ac ← find_key_containing fields "AcceptanceCriteria"
    match ac with
    | some acj =>
      if acj.truthy then do
        let a ← pyStr acj
        pure ("Description: " ++ d ++ "\nAcceptance Criteria: " ++ a)
      else pure ("Description: " ++ d)
    | none => pure ("Description: " ++ d)

/-- The full normalization applied to a fetched body before it is stored in
work_item_map (lines 94-112): fields extraction, description dispatch, HTML
stripping, and the final strip(). -/
def azItemText (d : Json) : Py String := do
  let fields ← pyGet d "fields" (.obj [])
  let desc ← azDescribe fields
  pure (strStrip (clean_html desc))

/-- Relation extraction of lines 116-127: forward hierarchy links
contribute the trailing URL segment to the related list in order, and the
last reverse hierarchy link's trailing URL segment becomes the parent. -/
def azRelationsOf (d : Json) : Py (List String × Option String) := do
  let relsJ ← pyGet d "relations" (.arr [])
  let rels ← pyList relsJ
  rels.foldlM
    (fun acc rel => do
      let rj ← pyGet rel "rel" .null
      if rj.isStrEq "System.LinkTypes.Hierarchy-Forward" then do
        let u ← pyStr (← pyGet rel "url" (.str ""))
        pure (acc.1 ++ [lastSplit u '/'], acc.2)
      else if rj.isStrEq "System.LinkTypes.Hierarchy-Reverse" then do
        let u ← pyStr (← pyGet rel "url" (.str ""))
        pure (acc.1, some (lastSplit u '/'))
      else pure acc)
    ([], none)

/-- The hierarchy key chosen on lines 130-135: the parent work item when it
is truthy (a nonempty string), the None sentinel otherwise. -/
def azParentKey (parent? : Option String) : Option String :=
  match parent? with
  | some p => if p.toList.isEmpty then none else some p
  | none => none

/-- The hierarchy update of lines 129-135: a truthy parent keys the entry,
otherwise the None sentinel does; the id is appended only after the
membership check on the current child list. -/
def azHierUpdate (st : AzState) (id : String) (parent? : Option String) : AzState :=
  let hkey : Option String := azParentKey parent?
  let cur := (List.lookup hkey st.hierarchy).getD []
  { st with hierarchy :=
    (if id ∈ cur then st.hierarchy
     else dictSet st.hierarchy hkey (cur ++ [id])) }

/-- Sequential traversal of a list of keys or projects with early fault
propagation (the for-loops of lines 88 and 138-141). -/
def runSeq (step : String → AzState → Except RunErr AzState) :
    List String → AzState → Except RunErr AzState
  | [], st => .ok st
  | c :: cs, st =>
    match step c st with
    | .error e => .error e
    | .ok st1 => runSeq step cs st1

/-- Recursively collect work item descriptions and build the hierarchy
(collect_work_item_descriptions_and_hierarchy, lines 70-143), with fuel
bounding the recursion depth.  An already-visited id returns immediately;
otherwise the id is marked visited and every project is tried in order:
each iteration fetches (served by the cache after the first success),
skips a falsy body, stores the cleaned description, extracts relations,
filters the related ids to unvisited all-digit ones, updates the
hierarchy, and recurses. -/
def collectWorkItem (env : AzEnv) (projects : List String) :
    Nat → String → AzState → Except RunErr AzState
  | 0, _, _ => .error .fuelOut
  | fuel + 1, id, st =>
    if id ∈ st.visited then .ok st
    else
      let st1 := { st with visited := st.visited ++ [id] }
      runSeq
        (fun proj s =>
          match azFetch env proj id s with
          | .error e => .error (.py e)
          | .ok (none, s1) => .ok s1
          | .ok (some d, s1) =>
            if d.truthy then
              match azItemText d with
              | .error e => .error (.py e)
              | .ok text =>
                let s2 := { s1 with work_item_map := dictSet s1.work_item_map id text }
                match azRelationsOf d with
                | .error e => .error (.py e)
                | .ok (fwd, parent?) =>
                  let related := fwd.filter (fun c => isDigits c && !s2.visited.contains c)
                  let s3 := azHierUpdate s2 id parent?
                  runSeq (fun c s' => collectWorkItem env projects fuel c s') related s3
            else .ok s1)
        projects st1

/-- Ids a body can put on the recursion worklist; a faulting relation
extraction contributes nothing (such a run faults before recursing). -/
def azBodyLinks (j : Json) : List String :=
  match azRelationsOf j with
  | .ok (fwd, _) => fwd
  | .error _ => []

/-- Every id the Azure traversal can ever visit: the root plus every
forward-relation target of any body the organization can serve. -/
def azUniverse (env : AzEnv) (root : String) : List String :=
  root :: env.foldr (fun e acc =>
    (match e.2.body? with
     | some j => azBodyLinks j
     | none => []) ++ acc) []

/-- Fuel that the termination theorem proves sufficient. -/
def azFuel (env : AzEnv) (root : String) : Nat :=
  (azUniverse env root).length + 1

/-- Entry point matching main's call (line 188): fresh state, starting at
the epic id. -/
def azRun (env : AzEnv) (projects : List String) (root : String) :
    Except RunErr AzState :=
  collectWorkItem env projects (azFuel env root) root initAzState

/-- The body an id is effectively processed with: the body of the first
project in order whose response is a 200 (the fetch cache replays it for
every later project within the run). -/
def azEffBody (env : AzEnv) (projects : List String) (id : String) : Option Json :=
  match projects.find? (fun p => (azResp env p id).status == 200) with
  | some p => (azResp env p id).body?
  | none => none

/-- The ids an id's processing puts on the worklist, as determined by the
organization alone: the digit-shaped forward relation targets of its
effective body, when that body is truthy and extracts without fault. -/
def azSucc (env : AzEnv) (projects : List String) (id : String) : Option (List String) :=
  match azEffBody env projects id with
  | some b =>
    if b.truthy then
      match azRelationsOf b with
      | .ok (fwd, _) => some (fwd.filter isDigits)
      | .error _ => none
    else none
  | none => none

/-- The work-item ids reachable from the root through forward relations of
effectively fetched, truthy, well-formed bodies. -/
inductive AzReach (env : AzEnv) (projects : List String) (root : String) : String → Prop where
  | root : AzReach env projects root root
  | step {k c : String} {ks : List String} :
      AzReach env projects root k → azSucc env projects k = some ks → c ∈ ks →
      AzReach env projects root c

/-- A served body is well formed: when truthy, its description and its
relations extract without an uncaught exception. -/
def azItemOK (b : Json) : Bool :=
  !b.truthy || (pyOk (azItemText b) && pyOk (azRelationsOf b))

/-- The whole organization serves only parseable, well-formed bodies on
success responses (other statuses are unconstrained: they are skipped). -/
def azEnvWF (env : AzEnv) : Bool :=
  env.all (fun e =>
    if e.2.status == 200 then
      match e.2.body? with
      | some b => azItemOK b
      | none => false
    else true)

/-! ## URL parsing (extract_work_item_id, src/azure_generation_script.py) -/

/-- Python's s.split(sep, 1): the part before the first separator, and the
rest when the separator occurs. -/
def splitFirst (s : String) (sep : Char) : String × Option String :=
  match splitChar sep s.toList with
  | [] => (s, none)
  | x :: rest =>
    (String.mk x,
     if rest.isEmpty then none else some (String.mk (List.intercalate [sep] rest)))

/-- The character list following the first "://", when present. -/
def afterSchemeSep : List Char → Option (List Char)
  | [] => none
  | ':' :: '/' :: '/' :: rest => some rest
  | _ :: rest => afterSchemeSep rest

/-- The path component of urllib.parse.urlparse, modelled for the URL
shapes the script receives: the fragment is cut at the first '#', the
query at the following first '?', and a scheme-and-authority part up to
the first '/' after "://" is removed; the params component (';') and
percent-decoding are not modelled. -/
def urlPath (u : String) : String :=
  let noFrag := (splitFirst u '#').1
  let noQ := (splitFirst noFrag '?').1
  match afterSchemeSep noQ.toList with
  | some rest => String.mk (rest.dropWhile (fun c => !(c == '/')))
  | none => noQ

/-- The query component of urllib.parse.urlparse under the same modelling:
everything after the first '?' once the fragment is cut at the first '#'. -/
def urlQuery (u : String) : String :=
  ((splitFirst (splitFirst u '#').1 '?').2).getD ""

/-- The values urllib.parse.parse_qs associates with one parameter name:
the query splits on '&', each pair splits at its first '=', pairs without
'=' or with an empty value are dropped (keep_blank_values defaults to
False), and values keep occurrence order; percent-decoding and
plus-to-space translation are not modelled. -/
def parse_qs_values (query name : String) : List String :=
  (strSplit query '&').filterMap (fun pair =>
    match splitFirst pair '=' with
    | (n, some v) => if n == name && !v.toList.isEmpty then some v else none
    | (_, none) => none)

/-- Extract the work item ID from the epic link (extract_work_item_id,
lines 11-22): the first parse_qs value of the workitem parameter when that
key is present, else the last path segment when it is all digits, else
None. -/
def extract_work_item_id (epic_link : String) : Option String :=
  match parse_qs_values (urlQuery epic_link) "workitem" with
  | v :: _ => some v
  | [] =>
    let lastPart := lastSplit (urlPath epic_link) '/'
    if isDigits lastPart then some lastPart else none

/-! ## Concrete instances used by counterexamples and witnesses -/

/-- A Jira issue body whose issuelinks all point outward at the given keys. -/
def jiraTicketBody (links : List String) : Json :=
  .obj [("fields", .obj [("issuelinks",
    .arr (links.map (fun k => .obj [("outwardIssue", .obj [("key", .str k)])])))])]

/-- Two Jira issues that link to each other: the A, B cycle. -/
def envCycJ : JiraEnv :=
  [("A", ⟨200, some (jiraTicketBody ["B"])⟩),
   ("B", ⟨200, some (jiraTicketBody ["A"])⟩)]

/-- A diamond: A links to B and C, and B also links to C. -/
def envDiamondJ : JiraEnv :=
  [("A", ⟨200, some (jiraTicketBody ["B", "C"])⟩),
   ("B", ⟨200, some (jiraTicketBody ["C"])⟩),
   ("C", ⟨200, some (jiraTicketBody [])⟩)]

/-- A root whose only child is not served (its fetch fails). -/
def envChildFailJ : JiraEnv := [("A", ⟨200, some (jiraTicketBody ["B"])⟩)]

/-- A root with no linked issues at all. -/
def envLoneJ : JiraEnv := [("A", ⟨200, some (jiraTicketBody [])⟩)]

/-- A served, truthy body that has no fields entry. -/
def envNoFieldsJ : JiraEnv := [("A", ⟨200, some (.obj [("x", .null)])⟩)]

/-- The JSON error body Jira serves with a 404 for a missing issue. -/
def jiraErrBody : Json := .obj [("errorMessages", .arr [.str "Issue does not exist"])]

/-- An instance that serves a 404 whose body is valid JSON. -/
def envErr404J : JiraEnv := [("X", ⟨404, some jiraErrBody⟩)]

/-- An Azure work-item body with the given type, forward-relation targets
and optional reverse-relation target. -/
def azItemBody (ty : String) (fwd : List String) (rev : Option String) : Json :=
  .obj [("fields", .obj [("System.WorkItemType", .str ty),
                         ("System.Description", .str "d")]),
        ("relations", .arr (
          (fwd.map (fun k => Json.obj
            [("rel", .str "System.LinkTypes.Hierarchy-Forward"),
             ("url", .str ("https://dev.azure.com/o/p/_apis/wit/workItems/" ++ k))])) ++
          (match rev with
           | some p => [Json.obj
              [("rel", .str "System.LinkTypes.Hierarchy-Reverse"),
               ("url", .str ("https://dev.azure.com/o/p/_apis/wit/workItems/" ++ p))]]
           | none => [])))]

/-- Two Azure work items whose forward links form the 1, 2 cycle. -/
def azEnvCyc : AzEnv :=
  [(("P", "1"), ⟨200, some (azItemBody "Task" ["2"] none)⟩),
   (("P", "2"), ⟨200, some (azItemBody "Task" ["1"] none)⟩)]

/-- One Azure root work item with no relations. -/
def azEnvLone : AzEnv :=
  [(("P", "7"), ⟨200, some (.obj [("fields",
    .obj [("System.Description", .str "d")])])⟩)]

/-- An Azure organization serving a 200 whose body does not parse. -/
def azEnvBadBody : AzEnv := [(("P", "9"), ⟨200, none⟩)]

/-- An Azure root whose only forward relation points at an unserved id. -/
def azEnvChildFail : AzEnv :=
  [(("P", "1"), ⟨200, some (azItemBody "Task" ["2"] none)⟩)]

/-- Whether a Jira run returned normally. -/
def runOkJ (env : JiraEnv) (root : String) : Bool :=
  match jiraRun env root with
  | .ok _ => true
  | .error _ => false

/-- The value of a normal Jira run (and a fixed dummy otherwise). -/
def jiraOut (env : JiraEnv) (root : String) : List TicketInfo × JiraState :=
  match jiraRun env root with
  | .ok r => r
  | .error _ => ([], initJiraState)

/-- Whether an Azure run returned normally. -/
def runOkA (env : AzEnv) (projects : List String) (root : String) : Bool :=
  match azRun env projects root with
  | .ok _ => true
  | .error _ => false

/-- The final state of a normal Azure run (and a fixed dummy otherwise). -/
def azOut (env : AzEnv) (projects : List String) (root : String) : AzState :=
  match azRun env projects root with
  | .ok st => st
  | .error _ => initAzState

/-! ## Invariants used by the general theorems -/

/-- Whether a string begins with another string. -/
def strStarts (p s : String) : Bool := listStarts p.toList s.toList

/-- A key whose fetch succeeds in the Jira instance: the served body parses
and is truthy, so the traversal emits a description for it. -/
def jiraTruthy (env : JiraEnv) (k : String) : Prop :=
  ∃ b, jiraEnvBody env k = some b ∧ b.truthy = true

/-- State invariant of the Jira traversal: the visited list never repeats a
key, every cached body is exactly what the instance serves for its key,
every key was requested at most once, and only visited keys were ever
requested. -/
structure JInv (env : JiraEnv) (st : JiraState) : Prop where
  vNodup : st.visited.Nodup
  cacheEff : ∀ k j, List.lookup k st.cache = some j → jiraEnvBody env k = some j
  callsNodup : st.calls.Nodup
  callsVis : ∀ c ∈ st.calls, c ∈ st.visited

/-- What one successful Jira traversal call guarantees relative to its
entry state: the visited list only grows; each emitted ticket_info is for
a freshly visited key with a truthy served body; emitted keys are pairwise
distinct; and each freshly visited key is emitted when its fetch succeeds
and has all of its linked keys visited on return. -/
structure JNodePost (env : JiraEnv) (st st' : JiraState) (xs : List TicketInfo) : Prop where
  visExt : ∃ t, st'.visited = st.visited ++ t
  emitNew : ∀ i ∈ xs, i.key ∉ st.visited ∧ i.key ∈ st'.visited
  emitNodup : (xs.map (fun i => i.key)).Nodup
  emitTruthy : ∀ i ∈ xs, jiraTruthy env i.key
  newCov : ∀ k, k ∈ st'.visited → k ∉ st.visited →
    (jiraTruthy env k → ∃ i ∈ xs, i.key = k) ∧
    (∀ ks, jiraSucc env k = some ks → ∀ c ∈ ks, c ∈ st'.visited)

/-- A key whose effective Azure fetch succeeds with a truthy body, so the
traversal stores a description for it. -/
def azEffTruthy (env : AzEnv) (projects : List String) (k : String) : Prop :=
  ∃ b, azEffBody env projects k = some b ∧ b.truthy = true

/-- State invariant of the Azure traversal: the visited list never repeats
an id; cached bodies belong to visited ids and are exactly the effective
body of their id; the description map has distinct keys, all visited with
truthy effective bodies; the hierarchy dictionary has distinct keys, each
child list is duplicate-free, its members are visited ids with truthy
effective bodies, and no id occurs in the child lists of two different
parents. -/
structure AzInv (env : AzEnv) (projects : List String) (st : AzState) : Prop where
  vNodup : st.visited.Nodup
  cacheVis : ∀ k j, List.lookup k st.cache = some j → k ∈ st.visited
  cacheEff : ∀ k j, List.lookup k st.cache = some j → azEffBody env projects k = some j
  mapKeysNodup : (st.work_item_map.map Prod.fst).Nodup
  mapOK : ∀ k t, List.lookup k st.work_item_map = some t →
    k ∈ st.visited ∧ azEffTruthy env projects k
  hierKeysNodup : (st.hierarchy.map Prod.fst).Nodup
  hierListsNodup : ∀ pl ∈ st.hierarchy, pl.2.Nodup
  hierMemOK : ∀ pl ∈ st.hierarchy, ∀ c ∈ pl.2, c ∈ st.visited ∧ azEffTruthy env projects c
  oneParent : ∀ c p1 p2 l1 l2, (p1, l1) ∈ st.hierarchy → (p2, l2) ∈ st.hierarchy →
    c ∈ l1 → c ∈ l2 → p1 = p2

/-- The hierarchy key an id is filed under when its processing succeeds, as
determined by the organization alone: the last reverse-relation target of
the effective body when truthy and nonempty, and the None sentinel
otherwise. -/
def azEffKey (env : AzEnv) (projects : List String) (id : String) :
    Option (Option String) :=
  match azEffBody env projects id with
  | some b =>
    if b.truthy then
      match azRelationsOf b with
      | .ok (_, parent?) => some (azParentKey parent?)
      | .error _ => none
    else none
  | none => none

/-- What one successful Azure traversal call guarantees relative to its
entry state: the visited list only grows; description-map keys are never
removed; cache entries of already-visited ids are untouched; child-list
members that were already visited were already filed under the same
parent; and each freshly visited id gets a description exactly when its
effective fetch is truthy, and has all of its effective related ids
visited on return. -/
structure AzNodePost (env : AzEnv) (projects : List String) (st st' : AzState) : Prop where
  visExt : ∃ t, st'.visited = st.visited ++ t
  mapMono : ∀ k t, List.lookup k st.work_item_map = some t →
    ∃ t', List.lookup k st'.work_item_map = some t'
  cacheVisOld : ∀ k, k ∈ st.visited → List.lookup k st'.cache = List.lookup k st.cache
  hierOld : ∀ p l', (p, l') ∈ st'.hierarchy → ∀ c ∈ l', c ∈ st.visited →
    ∃ l, (p, l) ∈ st.hierarchy ∧ c ∈ l
  newCov : ∀ k, k ∈ st'.visited → k ∉ st.visited →
    (azEffTruthy env projects k → ∃ t, List.lookup k st'.work_item_map = some t) ∧
    (∀ cs, azSucc env projects k = some cs → ∀ c ∈ cs, c ∈ st'.visited)

/-- The analogue of AzNodePost for a state inside the project loop of one
id's processing, where the id itself is already visited: its cache entry
and hierarchy filing are exempted (they are governed by the separate
per-id conclusions of the loop lemma). -/
structure AzLoopPost (env : AzEnv) (projects : List String) (id : String)
    (st st' : AzState) : Prop where
  visExt : ∃ t, st'.visited = st.visited ++ t
  mapMono : ∀ k t, List.lookup k st.work_item_map = some t →
    ∃ t', List.lookup k st'.work_item_map = some t'
  cacheVisOld : ∀ k, k ∈ st.visited → k ≠ id →
    List.lookup k st'.cache = List.lookup k st.cache
  hierOld : ∀ p l', (p, l') ∈ st'.hierarchy → ∀ c ∈ l', c ∈ st.visited → c ≠ id →
    ∃ l, (p, l) ∈ st.hierarchy ∧ c ∈ l
  newCov : ∀ k, k ∈ st'.visited → k ∉ st.visited →
    (azEffTruthy env projects k → ∃ t, List.lookup k st'.work_item_map = some t) ∧
    (∀ cs, azSucc env projects k = some cs → ∀ c ∈ cs, c ∈ st'.visited)

/-! ## Theorems -/

/-- C2, counterexample: in the Jira run on the diamond where A links to B
and C and B also links to C, the run succeeds and the resulting hierarchy
lists C as a child of A and also as a child of B — a key reachable by more
than one path appears under two different parents, so later relation
discoveries do add further hierarchy entries for it. -/
theorem c2_counterexample :
    runOkJ envDiamondJ "A" = true ∧
    (jiraOut envDiamondJ "A").2.hierarchy = [("A", ["B", "C"]), ("B", ["C"])] ∧
    ((jiraOut envDiamondJ "A").2.hierarchy.filter (fun pl => pl.2.contains "C")).length = 2 := by
  refine ⟨rfl, rfl, rfl⟩

/-- C4: evaluation of both fetchers at the failing inputs.  The Jira
fetcher, given a 404 whose body is valid JSON, stores that error body in
the cache and returns it as ticket data instead of returning an absent
value; the Azure fetcher, given a 200 whose body does not parse, raises
an uncaught JSONDecodeError instead of returning an absent value. -/
theorem c4_theorem :
    get_ticket_data envErr404J "X" initJiraState =
      (some jiraErrBody, { cache := [("X", jiraErrBody)], visited := [], hierarchy := [],
                           calls := ["X"] }) ∧
    (jiraResp envErr404J "X").status = 404 ∧
    azFetch azEnvBadBody "P" "9" initAzState = .error "JSONDecodeError" ∧
    (azResp azEnvBadBody "P" "9").status = 200 := by
  refine ⟨rfl, rfl, rfl, rfl⟩

/-- C5, counterexample: in the Jira run where the root A links to B and
fetching B fails, the run succeeds and A's description is emitted, but the
failed child key B still appears in the output hierarchy as a child of A —
it does not vanish from the whole output as claimed. -/
theorem c5_counterexample :
    runOkJ envChildFailJ "A" = true ∧
    jiraEnvBody envChildFailJ "B" = none ∧
    ((jiraOut envChildFailJ "A").1.map (fun i => i.key)) = ["A"] ∧
    (jiraOut envChildFailJ "A").2.hierarchy = [("A", ["B"])] := by
  refine ⟨rfl, rfl, rfl, rfl⟩

/-- C6, counterexample: in the Jira run on a root with no linked issues the
run succeeds and emits the root's description, but the resulting hierarchy
is empty — the Jira hierarchy has no root sentinel entry at all, so the
map does not consist of a sentinel mapped to the singleton root list. -/
theorem c6_counterexample :
    runOkJ envLoneJ "A" = true ∧
    ((jiraOut envLoneJ "A").1.map (fun i => i.key)) = ["A"] ∧
    (jiraOut envLoneJ "A").2.hierarchy = [] := by
  refine ⟨rfl, rfl, rfl⟩

/-- C7, counterexample: Jira field extraction is not total over record
shapes: a truthy record without a fields entry raises KeyError (the source
reads ticket_data['fields'] with a bracket access), and the whole
traversal aborts with that error instead of degrading to placeholders. -/
theorem c7_counterexample :
    jiraNormalize (.obj [("x", .null)]) = .error "KeyError: fields" ∧
    Json.truthy (.obj [("x", .null)]) = true ∧
    jiraRun envNoFieldsJ "A" = .error (.py "KeyError: fields") := by
  refine ⟨rfl, rfl, rfl⟩

/-- C3, counterexample: in the Azure run with two projects where the work
item is served by neither (both responses non-success), the traversal
issues two network requests for the same key 1 — one per project — so a
single traversal can request one key more than once. -/
theorem c3_counterexample :
    runOkA [] ["P1", "P2"] "1" = true ∧
    (azOut [] ["P1", "P2"] "1").calls = [("P1", "1"), ("P2", "1")] ∧
    (((azOut [] ["P1", "P2"] "1").calls.map Prod.snd).count "1") = 2 := by
  refine ⟨rfl, rfl, rfl⟩

/-- C9, counterexample: for a URL whose query string is exactly
"workitem=", the workitem parameter is present in the query, yet
extract_work_item_id does not return its (empty) value: parse_qs drops
blank values, so the function falls through to the path — returning the
numeric path segment in the first URL and the absent value in the second —
contradicting the claimed unconditional precedence of a present workitem
parameter. -/
theorem c9_counterexample :
    urlQuery "https://dev.azure.com/org/proj/123?workitem=" = "workitem=" ∧
    ((strSplit (urlQuery "https://dev.azure.com/org/proj/123?workitem=") '&').map
      (fun p => (splitFirst p '=').1)).contains "workitem" = true ∧
    extract_work_item_id "https://dev.azure.com/org/proj/123?workitem=" = some "123" ∧
    extract_work_item_id "https://h/abc?workitem=" = none := by
  refine ⟨rfl, rfl, rfl, rfl⟩
theorem lookupMem {α β : Type} [BEq α] [LawfulBEq α] {l : List (α × β)} {a : α} {b : β}
    (h : List.lookup a l = some b) : (a, b) ∈ l := by
  induction l with
  | nil => simp [List.lookup] at h
  | cons e es ih =>
    rw [List.lookup] at h
    by_cases hab : a == e.1
    · simp [hab] at h
      simp at hab
      subst hab h
      exact List.mem_cons_self _ _
    · simp [hab] at h
      exact List.mem_cons_of_mem _ (ih h)

theorem lookupAppendOne {α β : Type} [BEq α] [LawfulBEq α] {l : List (α × β)} {a k : α}
    {b v : β} (h : List.lookup k (l ++ [(a, b)]) = some v) :
    List.lookup k l = some v ∨ (k = a ∧ v = b) := by
  induction l with
  | nil =>
    rw [List.nil_append, List.lookup] at h
    by_cases hk : k == a
    · simp [hk] at h
      simp at hk
      exact Or.inr ⟨hk, h.symm⟩
    · simp [hk] at h
  | cons e es ih =>
    rw [List.cons_append, List.lookup] at h
    rw [List.lookup]
    by_cases hk : k == e.1
    · simp [hk] at h ⊢
      exact Or.inl h
    · simp [hk] at h ⊢
      exact ih h

theorem filterImpLen {α : Type} {p q : α → Bool} (h : ∀ x, q x = true → p x = true) :
    ∀ U : List α, (U.filter q).length ≤ (U.filter p).length := by
  intro U
  induction U with
  | nil => simp
  | cons x xs ih =>
    by_cases hq : q x = true
    · rw [List.filter_cons_of_pos hq, List.filter_cons_of_pos (h x hq)]
      simpa using ih
    · rw [List.filter_cons_of_neg (by simpa using hq)]
      by_cases hp : p x = true
      · rw [List.filter_cons_of_pos hp]
        exact Nat.le_succ_of_le ih
      · rw [List.filter_cons_of_neg (by simpa using hp)]
        exact ih

theorem filterImpLenLt {α : Type} {p q : α → Bool} (h : ∀ x, q x = true → p x = true)
    {key : α} {U : List α} (hU : key ∈ U) (hp : p key = true) (hq : q key = false) :
    (U.filter q).length < (U.filter p).length := by
  induction U with
  | nil => cases hU
  | cons x xs ih =>
    rcases List.mem_cons.mp hU with hx | hx
    · subst hx
      rw [List.filter_cons_of_neg (by simp [hq]), List.filter_cons_of_pos hp]
      exact Nat.lt_succ_of_le (filterImpLen h xs)
    · by_cases hqx : q x = true
      · rw [List.filter_cons_of_pos hqx, List.filter_cons_of_pos (h x hqx)]
        simpa using ih hx
      · rw [List.filter_cons_of_neg (by simpa using hqx)]
        by_cases hpx : p x = true
        · rw [List.filter_cons_of_pos hpx]
          exact Nat.lt_succ_of_lt (ih hx)
        · rw [List.filter_cons_of_neg (by simpa using hpx)]
          exact ih hx

theorem fetch_keep {env : JiraEnv} {key : String} {st : JiraState} {r : Option Json}
    {st2 : JiraState} (h : get_ticket_data env key st = (r, st2)) :
    st2.visited = st.visited ∧ st2.hierarchy = st.hierarchy ∧
    (st2.calls = st.calls ∨ st2.calls = st.calls ++ [key]) := by
  unfold get_ticket_data at h
  split at h
  · cases h; exact ⟨rfl, rfl, Or.inl rfl⟩
  · split at h <;> cases h <;> exact ⟨rfl, rfl, Or.inr rfl⟩

theorem fetch_val {env : JiraEnv} {key : String} {st : JiraState} {r : Option Json}
    {st2 : JiraState} (h : get_ticket_data env key st = (r, st2))
    (hc : ∀ k j, List.lookup k st.cache = some j → jiraEnvBody env k = some j) :
    r = jiraEnvBody env key := by
  unfold get_ticket_data at h
  split at h
  · next j hj =>
    cases h
    exact (hc key j hj).symm
  · next hj =>
    split at h <;> next hb => cases h; exact hb.symm

theorem fetch_cache {env : JiraEnv} {key : String} {st : JiraState} {r : Option Json}
    {st2 : JiraState} (h : get_ticket_data env key st = (r, st2))
    (hc : ∀ k j, List.lookup k st.cache = some j → jiraEnvBody env k = some j) :
    ∀ k j, List.lookup k st2.cache = some j → jiraEnvBody env k = some j := by
  unfold get_ticket_data at h
  split at h
  · cases h; exact hc
  · split at h
    · next j hb =>
      cases h
      intro k j' hk
      rcases lookupAppendOne hk with hk' | ⟨hka, hkv⟩
      · exact hc k j' hk'
      · subst hka hkv; exact hb
    · cases h; exact hc

theorem fetch_calls_new {env : JiraEnv} {key : String} {st : JiraState} {r : Option Json}
    {st2 : JiraState} (h : get_ticket_data env key st = (r, st2))
    (hn : st.calls.Nodup) (hk : key ∉ st.calls) : st2.calls.Nodup := by
  rcases (fetch_keep h).2.2 with hc | hc <;> rw [hc]
  · exact hn
  · simpa [List.nodup_append] using ⟨hn, hk⟩

theorem universeOfBody {env : JiraEnv} {root k : String} {j : Json}
    (hb : jiraEnvBody env k = some j) :
    ∀ c ∈ jiraBodyLinks j, c ∈ jiraUniverse env root := by
  intro c hc
  unfold jiraEnvBody jiraResp at hb
  rcases hl : List.lookup k env with _ | r
  · rw [hl] at hb; simp at hb
  · rw [hl] at hb
    simp at hb
    have hmem : (k, r) ∈ env := lookupMem hl
    unfold jiraUniverse
    refine List.mem_cons_of_mem _ ?_
    clear hl
    induction env with
    | nil => cases hmem
    | cons e es ih =>
      rw [List.foldr_cons]
      rcases List.mem_cons.mp hmem with he | he
      · subst he
        simp only [hb]
        exact List.mem_append_left _ hc
      · exact List.mem_append_right _ (ih he)

theorem jPostMono {env : JiraEnv} {st st' : JiraState} {xs : List TicketInfo}
    (h : JNodePost env st st' xs) : ∀ k ∈ st.visited, k ∈ st'.visited := by
  rcases h.visExt with ⟨t, ht⟩
  intro k hk
  rw [ht]
  exact List.mem_append_left _ hk

theorem jPostRefl (env : JiraEnv) (st : JiraState) : JNodePost env st st [] := by
  refine ⟨⟨[], by simp⟩, by simp, by simp, by simp, ?_⟩
  intro k hk hk'
  exact absurd hk hk'

theorem jPostComp {env : JiraEnv} {st st1 st2 : JiraState} {xs ys : List TicketInfo}
    (h1 : JNodePost env st st1 xs) (h2 : JNodePost env st1 st2 ys) :
    JNodePost env st st2 (xs ++ ys) := by
  refine ⟨?_, ?_, ?_, ?_, ?_⟩
  · rcases h1.visExt with ⟨t1, ht1⟩
    rcases h2.visExt with ⟨t2, ht2⟩
    exact ⟨t1 ++ t2, by rw [ht2, ht1, List.append_assoc]⟩
  · intro i hi
    rcases List.mem_append.mp hi with hx | hy
    · exact ⟨(h1.emitNew i hx).1, jPostMono h2 _ (h1.emitNew i hx).2⟩
    · refine ⟨fun hmem => (h2.emitNew i hy).1 (jPostMono h1 _ hmem), (h2.emitNew i hy).2⟩
  · rw [List.map_append, List.nodup_append]
    refine ⟨h1.emitNodup, h2.emitNodup, ?_⟩
    intro a ha hb
    rcases List.mem_map.mp ha with ⟨i, hi, hik⟩
    rcases List.mem_map.mp hb with ⟨i', hi', hik'⟩
    exact (h2.emitNew i' hi').1 (by rw [hik']; rw [← hik]; exact (h1.emitNew i hi).2)
  · intro i hi
    rcases List.mem_append.mp hi with hx | hy
    · exact h1.emitTruthy i hx
    · exact h2.emitTruthy i hy
  · intro k hk hk'
    by_cases hmid : k ∈ st1.visited
    · rcases (h1.newCov k hmid hk') with ⟨hcov, hclo⟩
      refine ⟨fun ht => ?_, fun ks hks c hc => jPostMono h2 _ (hclo ks hks c hc)⟩
      rcases hcov ht with ⟨i, hi, hik⟩
      exact ⟨i, List.mem_append_left _ hi, hik⟩
    · rcases (h2.newCov k hk hmid) with ⟨hcov, hclo⟩
      refine ⟨fun ht => ?_, hclo⟩
      rcases hcov ht with ⟨i, hi, hik⟩
      exact ⟨i, List.mem_append_right _ hi, hik⟩

theorem jiraListHoare (env : JiraEnv) (fuel : Nat) (pkey : String)
    (Hnode : ∀ key parent st xs st',
      collectTicketInfo env fuel key parent st = .ok (xs, st') →
      JInv env st → (∀ p, parent = some p → p ∈ st.visited) →
      JInv env st' ∧ JNodePost env st st' xs ∧ key ∈ st'.visited) :
    ∀ cs st ys st',
      runChildren (fun c s => collectTicketInfo env fuel c (some pkey) s) cs st = .ok (ys, st') →
      JInv env st → pkey ∈ st.visited →
      JInv env st' ∧ JNodePost env st st' ys ∧ ∀ c ∈ cs, c ∈ st'.visited := by
  intro cs
  induction cs with
  | nil =>
    intro st ys st' h hinv hp
    simp only [runChildren] at h
    obtain ⟨hys, hst⟩ := by simpa using h
    subst hys hst
    exact ⟨hinv, jPostRefl env st, by simp⟩
  | cons c cs' ih =>
    intro st ys st' h hinv hp
    simp only [runChildren] at h
    split at h
    · exact absurd h (by simp)
    · next xs1 stm hstep =>
      split at h
      · exact absurd h (by simp)
      · next ys2 st2 hrest =>
        obtain ⟨hys, hst⟩ := by simpa using h
        subst hys hst
        obtain ⟨hinv1, hpost1, hc1⟩ :=
          Hnode c (some pkey) st xs1 stm hstep hinv (by intro p hp'; cases hp'; exact hp)
        obtain ⟨hinv2, hpost2, hall2⟩ := ih stm ys2 st2 hrest hinv1 (jPostMono hpost1 _ hp)
        refine ⟨hinv2, jPostComp hpost1 hpost2, ?_⟩
        intro x hx
        rcases List.mem_cons.mp hx with hx | hx
        · subst hx; exact jPostMono hpost2 _ hc1
        · exact hall2 x hx

theorem jiraFetchStep {env : JiraEnv} {key : String} {st st2 : JiraState} {r : Option Json}
    (hfetch : get_ticket_data env key { st with visited := st.visited ++ [key] } = (r, st2))
    (hinv : JInv env st) (hguard : key ∉ st.visited) :
    JInv env st2 ∧ st2.visited = st.visited ++ [key] ∧ st2.hierarchy = st.hierarchy ∧
      r = jiraEnvBody env key := by
  have hkeep := fetch_keep hfetch
  have hvis : st2.visited = st.visited ++ [key] := hkeep.1
  have hkc : key ∉ st.calls := fun hc => hguard (hinv.callsVis key hc)
  refine ⟨⟨?_, ?_, ?_, ?_⟩, hvis, hkeep.2.1, fetch_val hfetch hinv.cacheEff⟩
  · rw [hvis, List.nodup_append]
    refine ⟨hinv.vNodup, List.nodup_singleton key, ?_⟩
    intro a ha hb
    rw [List.mem_singleton] at hb
    subst hb
    exact hguard ha
  · exact fetch_cache hfetch hinv.cacheEff
  · exact fetch_calls_new hfetch hinv.callsNodup hkc
  · intro c hc
    rcases hkeep.2.2 with hcalls | hcalls <;> rw [hcalls] at hc
    · rw [hvis]; exact List.mem_append_left _ (hinv.callsVis c hc)
    · rcases List.mem_append.mp hc with h1 | h1
      · rw [hvis]; exact List.mem_append_left _ (hinv.callsVis c h1)
      · rw [hvis]
        exact List.mem_append_right _ h1

theorem jPostSkip {env : JiraEnv} {st st2 : JiraState} {key : String}
    (hvis : st2.visited = st.visited ++ [key]) (hguard : key ∉ st.visited)
    (hnt : ¬ jiraTruthy env key) (hsucc : jiraSucc env key = none) :
    JNodePost env st st2 [] := by
  refine ⟨⟨[key], hvis⟩, by simp, by simp, by simp, ?_⟩
  intro k hk hk'
  have hkey : k = key := by
    rw [hvis] at hk
    rcases List.mem_append.mp hk with h1 | h1
    · exact absurd h1 hk'
    · simpa using h1
  subst hkey
  exact ⟨fun ht => absurd ht hnt, fun ks hks => by rw [hsucc] at hks; cases hks⟩

theorem jiraNodeHoare (env : JiraEnv) : ∀ (fuel : Nat) (key : String) (parent : Option String)
    (st : JiraState) (xs : List TicketInfo) (st' : JiraState),
    collectTicketInfo env fuel key parent st = .ok (xs, st') →
    JInv env st → (∀ p, parent = some p → p ∈ st.visited) →
    JInv env st' ∧ JNodePost env st st' xs ∧ key ∈ st'.visited := by
  intro fuel
  induction fuel with
  | zero =>
    intro key parent st xs st' h _ _
    simp [collectTicketInfo] at h
  | succ fuel ih =>
    intro key parent st xs st' h hinv hpar
    simp only [collectTicketInfo] at h
    split at h
    · next hguard =>
      obtain ⟨hxs, hst⟩ := by simpa using h
      subst hxs hst
      refine ⟨hinv, jPostRefl env st, hguard⟩
    · next hguard =>
      split at h
      · next st2 hfetch =>
        obtain ⟨hxs, hst⟩ := by simpa using h
        subst hxs hst
        obtain ⟨hinv2, hvis2, _, hval⟩ := jiraFetchStep hfetch hinv hguard
        have hnone : jiraEnvBody env key = none := hval.symm
        refine ⟨hinv2, jPostSkip hvis2 hguard ?_ ?_, by rw [hvis2]; exact List.mem_append_right _ (List.mem_singleton_self key)⟩
        · rintro ⟨b, hb, _⟩
          rw [hnone] at hb
          cases hb
        · unfold jiraSucc
          rw [hnone]
      · next td st2 hfetch =>
        obtain ⟨hinv2, hvis2, _, hval⟩ := jiraFetchStep hfetch hinv hguard
        have hbody : jiraEnvBody env key = some td := hval.symm
        have hkey2 : key ∈ st2.visited := by
          rw [hvis2]; exact List.mem_append_right _ (List.mem_singleton_self key)
        split at h
        · next htruthy =>
          split at h
          · simp at h
          · next nf hnorm =>
            split at h
            · simp at h
            · next ks hlinks =>
              split at h
              · simp at h
              · next childInfos st4 hrun =>
                obtain ⟨hxs, hst⟩ := by simpa using h
                subst hxs hst
                have hsucc : jiraSucc env key = some ks := by
                  unfold jiraSucc
                  rw [hbody]
                  simp [htruthy, hlinks]
                obtain ⟨hinv4, post3, hall⟩ :=
                  jiraListHoare env fuel key (fun a b c d e hh hi hp => ih a b c d e hh hi hp)
                    (ks.filter (fun c => !(some c == parent)))
                    _ childInfos st4 hrun
                    ⟨hinv2.vNodup, hinv2.cacheEff, hinv2.callsNodup, hinv2.callsVis⟩
                    hkey2
                have hkey4 : key ∈ st4.visited := jPostMono post3 _ hkey2
                have hsub3 : ∀ a, a ∈ st.visited → a ∈ st2.visited := by
                  intro a ha; rw [hvis2]; exact List.mem_append_left _ ha
                refine ⟨⟨hinv4.vNodup, hinv4.cacheEff, hinv4.callsNodup, hinv4.callsVis⟩,
                  ⟨?_, ?_, ?_, ?_, ?_⟩, hkey4⟩
                · rcases post3.visExt with ⟨t, ht⟩
                  refine ⟨[key] ++ t, ?_⟩
                  rw [ht]
                  show st2.visited ++ t = st.visited ++ ([key] ++ t)
                  rw [hvis2, List.append_assoc]
                · intro i hi
                  rcases List.mem_cons.mp hi with hi | hi
                  · subst hi
                    exact ⟨hguard, hkey4⟩
                  · obtain ⟨h1, h2⟩ := post3.emitNew i hi
                    exact ⟨fun hm => h1 (hsub3 _ hm), h2⟩
                · rw [List.map_cons, List.nodup_cons]
                  refine ⟨?_, post3.emitNodup⟩
                  intro hmem
                  rcases List.mem_map.mp hmem with ⟨i, hi, hik⟩
                  exact (post3.emitNew i hi).1 (by rw [hik]; exact hkey2)
                · intro i hi
                  rcases List.mem_cons.mp hi with hi | hi
                  · subst hi
                    exact ⟨td, hbody, htruthy⟩
                  · exact post3.emitTruthy i hi
                · intro k hk4 hknot
                  by_cases hk2 : k ∈ st2.visited
                  · have hkk : k = key := by
                      rw [hvis2] at hk2
                      rcases List.mem_append.mp hk2 with h1 | h1
                      · exact absurd h1 hknot
                      · simpa using h1
                    subst hkk
                    refine ⟨fun _ => ⟨_, List.mem_cons_self _ _, rfl⟩, ?_⟩
                    intro ks0 hks0 c hc
                    rw [hsucc] at hks0
                    injection hks0 with hks0
                    subst hks0
                    by_cases hcl : c ∈ ks.filter (fun c => !(some c == parent))
                    · exact hall c hcl
                    · have hbeq : (some c == parent) = true := by
                        cases hb : (some c == parent)
                        · exact absurd (List.mem_filter.mpr ⟨hc, by simp [hb]⟩) hcl
                        · rfl
                      have hpc : parent = some c := (eq_of_beq hbeq).symm
                      exact jPostMono post3 _ (hsub3 _ (hpar c hpc))
                  · obtain ⟨hcov, hclo⟩ := post3.newCov k hk4 hk2
                    refine ⟨fun ht => ?_, hclo⟩
                    rcases hcov ht with ⟨i, hi, hik⟩
                    exact ⟨i, List.mem_cons_of_mem _ hi, hik⟩
        · next htruthy =>
          obtain ⟨hxs, hst⟩ := by simpa using h
          subst hxs hst
          refine ⟨hinv2, jPostSkip hvis2 hguard ?_ ?_, hkey2⟩
          · rintro ⟨b, hb, hbt⟩
            rw [hbody] at hb
            injection hb with hb
            subst hb
            exact absurd hbt htruthy
          · unfold jiraSucc
            rw [hbody]
            simp [htruthy]

theorem pyOkIff {α : Type} {e : Py α} : pyOk e = true ↔ ∃ v, e = .ok v := by
  cases e <;> simp [pyOk]

theorem jiraWFBody {env : JiraEnv} {k : String} {b : Json} (hwf : jiraEnvWF env = true)
    (hb : jiraEnvBody env k = some b) : jiraTicketOK b = true := by
  unfold jiraEnvBody jiraResp at hb
  rcases hl : List.lookup k env with _ | r
  · rw [hl] at hb; simp at hb
  · rw [hl] at hb
    simp at hb
    have hmem : (k, r) ∈ env := lookupMem hl
    have := (List.all_eq_true.mp hwf) _ hmem
    simp only at this
    rw [hb] at this
    exact this

theorem jiraProgressList (env : JiraEnv) (root : String) (fuel : Nat) (pkey : String)
    (Hnode : ∀ key parent st, JInv env st → key ∈ jiraUniverse env root →
      ((jiraUniverse env root).filter (fun k => decide (k ∉ st.visited))).length < fuel →
      ∃ out, collectTicketInfo env fuel key parent st = .ok out) :
    ∀ cs st, JInv env st → pkey ∈ st.visited →
      (∀ c ∈ cs, c ∈ jiraUniverse env root) →
      ((jiraUniverse env root).filter (fun k => decide (k ∉ st.visited))).length < fuel →
      ∃ out, runChildren (fun c s => collectTicketInfo env fuel c (some pkey) s) cs st = .ok out := by
  intro cs
  induction cs with
  | nil =>
    intro st _ _ _ _
    exact ⟨([], st), rfl⟩
  | cons c cs' ih =>
    intro st hinv hp hcs hlen
    obtain ⟨⟨xs1, stm⟩, hstep⟩ := Hnode c (some pkey) st hinv (hcs c (List.mem_cons_self _ _)) hlen
    obtain ⟨hinvm, hpostm, _⟩ := jiraNodeHoare env fuel c (some pkey) st xs1 stm hstep hinv
      (by intro p hp'; cases hp'; exact hp)
    have hlenm :
        ((jiraUniverse env root).filter (fun k => decide (k ∉ stm.visited))).length < fuel := by
      refine Nat.lt_of_le_of_lt (filterImpLen ?_ _) hlen
      intro x hx
      simp only [decide_eq_true_eq] at hx ⊢
      exact fun hmem => hx (jPostMono hpostm _ hmem)
    obtain ⟨⟨ys2, st2⟩, hrest⟩ := ih stm hinvm (jPostMono hpostm _ hp)
      (fun a ha => hcs a (List.mem_cons_of_mem _ ha)) hlenm
    refine ⟨(xs1 ++ ys2, st2), ?_⟩
    simp only [runChildren, hstep, hrest]

theorem jiraProgress (env : JiraEnv) (root : String) (hwf : jiraEnvWF env = true) :
    ∀ (fuel : Nat) (key : String) (parent : Option String) (st : JiraState),
      JInv env st → key ∈ jiraUniverse env root →
      ((jiraUniverse env root).filter (fun k => decide (k ∉ st.visited))).length < fuel →
      ∃ out, collectTicketInfo env fuel key parent st = .ok out := by
  intro fuel
  induction fuel with
  | zero =>
    intro key parent st _ _ hlen
    cases hlen
  | succ fuel ih =>
    intro key parent st hinv hU hlen
    by_cases hguard : key ∈ st.visited
    · exact ⟨([], st), by simp [collectTicketInfo, hguard]⟩
    · rcases hfe : get_ticket_data env key { st with visited := st.visited ++ [key] }
        with ⟨r, st2⟩
      obtain ⟨hinv2, hvis2, _, hval⟩ := jiraFetchStep hfe hinv hguard
      have hlen2 :
          ((jiraUniverse env root).filter (fun k => decide (k ∉ st2.visited))).length < fuel := by
        have hlt := @filterImpLenLt String
          (fun k => decide (k ∉ st.visited)) (fun k => decide (k ∉ st2.visited))
          (fun x hx => by
            simp only [decide_eq_true_eq] at hx ⊢
            intro hmem
            exact hx (by rw [hvis2]; exact List.mem_append_left _ hmem))
          key _ hU (by simpa using hguard)
          (by simp only [decide_eq_false_iff_not, Decidable.not_not]
              rw [hvis2]; exact List.mem_append_right _ (List.mem_singleton_self key))
        omega
      rcases r with _ | td
      · exact ⟨([], st2), by simp [collectTicketInfo, hguard, hfe]⟩
      · have hbody : jiraEnvBody env key = some td := hval.symm
        rcases htr : td.truthy with _ | _
        · refine ⟨([], st2), ?_⟩
          simp [collectTicketInfo, hguard, hfe, htr]
        · have hok := jiraWFBody hwf hbody
          unfold jiraTicketOK at hok
          rw [htr] at hok
          simp only [Bool.not_true, Bool.false_or, Bool.and_eq_true] at hok
          obtain ⟨nf, hnorm⟩ := pyOkIff.mp hok.1
          obtain ⟨ks, hlinks⟩ := pyOkIff.mp hok.2
          have hkssub : ∀ c ∈ ks, c ∈ jiraUniverse env root := by
            intro c hc
            refine universeOfBody hbody c ?_
            unfold jiraBodyLinks
            rw [hlinks]
            exact hc
          have hkey2 : key ∈ st2.visited := by
            rw [hvis2]; exact List.mem_append_right _ (List.mem_singleton_self key)
          obtain ⟨⟨ys, st4⟩, hrun⟩ := jiraProgressList env root fuel key
            (fun k p s hi hu hl => ih k p s hi hu hl)
            (ks.filter (fun c => !(some c == parent)))
            { st2 with hierarchy :=
              (match ks.filter (fun c => !(some c == parent)) with
               | [] => st2.hierarchy
               | _ :: _ => dictSet st2.hierarchy key (ks.filter (fun c => !(some c == parent)))) }
            ⟨hinv2.vNodup, hinv2.cacheEff, hinv2.callsNodup, hinv2.callsVis⟩
            hkey2
            (fun c hc => hkssub c (List.mem_filter.mp hc).1)
            hlen2
          refine ⟨(⟨key, nf.summary, nf.description, nf.status, nf.acceptance_criteria,
                    nf.comments⟩ :: ys, st4), ?_⟩
          simp [collectTicketInfo, hguard, hfe, htr, hnorm, hlinks, hrun]

theorem beqFlipFalse {α : Type} [BEq α] [LawfulBEq α] {a b : α} (h : (a == b) = false) :
    (b == a) = false := by
  cases hq : b == a
  · rfl
  · have : b = a := eq_of_beq hq
    subst this
    rw [beq_self_eq_true] at h
    cases h

theorem lookupAppendNe {α β : Type} [BEq α] [LawfulBEq α] {l : List (α × β)} {a k : α}
    {b : β} (h : k ≠ a) : List.lookup k (l ++ [(a, b)]) = List.lookup k l := by
  induction l with
  | nil =>
    have hk : (k == a) = false := beq_eq_false_iff_ne.mpr h
    simp [List.lookup, hk]
  | cons e es ih =>
    rw [List.cons_append]
    by_cases hk : (k == e.1) = true
    · simp [List.lookup, hk]
    · have hk' : (k == e.1) = false := by simpa using hk
      simp [List.lookup, hk', ih]

theorem dictSetLookupSelf {α β : Type} [BEq α] [LawfulBEq α] {d : List (α × β)} {k : α}
    {v : β} : List.lookup k (dictSet d k v) = some v := by
  unfold dictSet
  by_cases hany : d.any (fun p => p.1 == k) = true
  · rw [if_pos hany]
    induction d with
    | nil => simp at hany
    | cons e es ih =>
      rw [List.map_cons]
      by_cases he : (e.1 == k) = true
      · rw [if_pos he]
        simp [List.lookup]
      · rw [if_neg he]
        have hke : (k == e.1) = false := beqFlipFalse (by simpa using he)
        simp only [List.lookup, hke]
        apply ih
        rcases List.any_eq_true.mp hany with ⟨p, hp, hpk⟩
        rcases List.mem_cons.mp hp with hpe | hpe
        · subst hpe; exact absurd hpk (by simpa using he)
        · exact List.any_eq_true.mpr ⟨p, hpe, hpk⟩
  · rw [if_neg hany]
    induction d with
    | nil => simp [List.lookup]
    | cons e es ih =>
      rw [List.cons_append]
      have he : (e.1 == k) = false := by
        cases hq : e.1 == k
        · rfl
        · exact absurd (List.any_eq_true.mpr ⟨e, List.mem_cons_self _ _, by simpa using hq⟩) hany
      have hke : (k == e.1) = false := beqFlipFalse he
      simp only [List.lookup, hke]
      exact ih (fun hc => hany (by
        rcases List.any_eq_true.mp hc with ⟨p, hp, hpk⟩
        exact List.any_eq_true.mpr ⟨p, List.mem_cons_of_mem _ hp, hpk⟩))

theorem dictSetLookupOther {α β : Type} [BEq α] [LawfulBEq α] {d : List (α × β)} {k k' : α}
    {v : β} (h : k' ≠ k) : List.lookup k' (dictSet d k v) = List.lookup k' d := by
  unfold dictSet
  by_cases hany : d.any (fun p => p.1 == k) = true
  · rw [if_pos hany]
    clear hany
    induction d with
    | nil => simp
    | cons e es ih =>
      rw [List.map_cons]
      by_cases he : (e.1 == k) = true
      · rw [if_pos he]
        have h1 : (k' == k) = false := beq_eq_false_iff_ne.mpr h
        have h2 : (k' == e.1) = false := by rw [eq_of_beq he]; exact h1
        simp only [List.lookup, h1, h2]
        exact ih
      · rw [if_neg he]
        by_cases hke : (k' == e.1) = true
        · simp [List.lookup, hke]
        · have hke' : (k' == e.1) = false := by simpa using hke
          simp only [List.lookup, hke']
          exact ih
  · rw [if_neg hany]
    exact lookupAppendNe h

theorem dictSetMem {α β : Type} [BEq α] [LawfulBEq α] {d : List (α × β)} {k : α} {v : β}
    {e : α × β} (h : e ∈ dictSet d k v) : e = (k, v) ∨ (e ∈ d ∧ e.1 ≠ k) := by
  unfold dictSet at h
  by_cases hany : d.any (fun p => p.1 == k) = true
  · rw [if_pos hany] at h
    rcases List.mem_map.mp h with ⟨p, hp, hpe⟩
    by_cases hpk : (p.1 == k) = true
    · rw [if_pos hpk] at hpe
      exact Or.inl hpe.symm
    · rw [if_neg hpk] at hpe
      subst hpe
      exact Or.inr ⟨hp, by simpa using hpk⟩
  · rw [if_neg hany] at h
    rcases List.mem_append.mp h with h1 | h1
    · refine Or.inr ⟨h1, ?_⟩
      intro hek
      exact hany (List.any_eq_true.mpr ⟨e, h1, by simpa using hek⟩)
    · exact Or.inl (by simpa using h1)

theorem dictSetMemSelf {α β : Type} [BEq α] [LawfulBEq α] {d : List (α × β)} {k : α}
    {v : β} : (k, v) ∈ dictSet d k v := by
  unfold dictSet
  by_cases hany : d.any (fun p => p.1 == k) = true
  · rw [if_pos hany]
    rcases List.any_eq_true.mp hany with ⟨p, hp, hpk⟩
    have himg : (if (p.1 == k) = true then (k, v) else p) = (k, v) := if_pos (by simpa using hpk)
    have hm := List.mem_map_of_mem (fun q => if (q.1 == k) = true then (k, v) else q) hp
    simp only at hm
    rw [himg] at hm
    exact hm
  · rw [if_neg hany]
    exact List.mem_append_right _ (List.mem_singleton_self _)

theorem dictSetMemOther {α β : Type} [BEq α] [LawfulBEq α] {d : List (α × β)} {k : α}
    {v : β} {e : α × β} (he : e ∈ d) (hne : e.1 ≠ k) : e ∈ dictSet d k v := by
  unfold dictSet
  by_cases hany : d.any (fun p => p.1 == k) = true
  · rw [if_pos hany]
    have himg : (if (e.1 == k) = true then (k, v) else e) = e :=
      if_neg (by simp [beq_eq_false_iff_ne.mpr hne])
    have hm := List.mem_map_of_mem (fun q => if (q.1 == k) = true then (k, v) else q) he
    simp only at hm
    rw [himg] at hm
    exact hm
  · rw [if_neg hany]
    exact List.mem_append_left _ he

theorem dictSetKeysNodup {α β : Type} [BEq α] [LawfulBEq α] {d : List (α × β)} {k : α}
    {v : β} (h : (d.map Prod.fst).Nodup) : ((dictSet d k v).map Prod.fst).Nodup := by
  unfold dictSet
  by_cases hany : d.any (fun p => p.1 == k) = true
  · rw [if_pos hany]
    have hkeys : (d.map (fun p => if (p.1 == k) = true then (k, v) else p)).map Prod.fst
        = d.map Prod.fst := by
      rw [List.map_map]
      refine List.map_congr_left ?_
      intro p _
      show Prod.fst (if (p.1 == k) = true then (k, v) else p) = p.1
      by_cases hpk : (p.1 == k) = true
      · rw [if_pos hpk]
        exact (eq_of_beq hpk).symm
      · rw [if_neg hpk]
    rw [hkeys]
    exact h
  · rw [if_neg hany]
    rw [List.map_append, List.nodup_append]
    refine ⟨h, by simp, ?_⟩
    intro a ha hb
    simp only [List.map_cons, List.map_nil, List.mem_singleton] at hb
    subst hb
    rcases List.mem_map.mp ha with ⟨p, hp, hpk⟩
    exact hany (List.any_eq_true.mpr ⟨p, hp, by simp [hpk]⟩)

theorem azFetchCases {env : AzEnv} {proj id : String} {st st2 : AzState} {r : Option Json}
    (h : azFetch env proj id st = .ok (r, st2)) :
    (∃ b, List.lookup id st.cache = some b ∧ r = some b ∧ st2 = st) ∨
    (List.lookup id st.cache = none ∧ ((azResp env proj id).status == 200) = false ∧
      r = none ∧ st2 = { st with calls := st.calls ++ [(proj, id)] }) ∨
    (∃ j, List.lookup id st.cache = none ∧ ((azResp env proj id).status == 200) = true ∧
      (azResp env proj id).body? = some j ∧ r = some j ∧
      st2 = { st with calls := st.calls ++ [(proj, id)],
                      cache := st.cache ++ [(id, j)] }) := by
  unfold azFetch at h
  split at h
  · next b hb =>
    obtain ⟨hr, hst⟩ := by simpa using h
    exact Or.inl ⟨b, hb, hr.symm, hst.symm⟩
  · next hb =>
    split at h
    · next hs =>
      split at h
      · next j hj =>
        obtain ⟨hr, hst⟩ := by simpa using h
        exact Or.inr (Or.inr ⟨j, hb, hs, hj, hr.symm, hst.symm⟩)
      · simp at h
    · next hs =>
      obtain ⟨hr, hst⟩ := by simpa using h
      exact Or.inr (Or.inl ⟨hb, by simpa using hs, hr.symm, hst.symm⟩)

theorem azEffBodySkip {env : AzEnv} {id p : String} {ps : List String}
    (h : ((azResp env p id).status == 200) = false) :
    azEffBody env (p :: ps) id = azEffBody env ps id := by
  unfold azEffBody
  rw [List.find?_cons_of_neg _ (by simpa using h)]

theorem azEffBodyHit {env : AzEnv} {id p : String} (ps : List String)
    (h : ((azResp env p id).status == 200) = true) :
    azEffBody env (p :: ps) id = (azResp env p id).body? := by
  unfold azEffBody
  rw [List.find?_cons_of_pos _ (by simpa using h)]

theorem azLoopPostMono {env : AzEnv} {projects : List String} {id : String}
    {st st' : AzState} (h : AzLoopPost env projects id st st') :
    ∀ k ∈ st.visited, k ∈ st'.visited := by
  rcases h.visExt with ⟨t, ht⟩
  intro k hk
  rw [ht]
  exact List.mem_append_left _ hk

theorem azNodePostMono {env : AzEnv} {projects : List String} {st st' : AzState}
    (h : AzNodePost env projects st st') : ∀ k ∈ st.visited, k ∈ st'.visited := by
  rcases h.visExt with ⟨t, ht⟩
  intro k hk
  rw [ht]
  exact List.mem_append_left _ hk

theorem azNodePostRefl (env : AzEnv) (projects : List String) (st : AzState) :
    AzNodePost env projects st st := by
  refine ⟨⟨[], by simp⟩, fun k t ht => ⟨t, ht⟩, fun _ _ => rfl, ?_, ?_⟩
  · intro p l' hl c hc _
    exact ⟨l', hl, hc⟩
  · intro k hk hk'
    exact absurd hk hk'

theorem azNodePostComp {env : AzEnv} {projects : List String} {st st1 st2 : AzState}
    (h1 : AzNodePost env projects st st1) (h2 : AzNodePost env projects st1 st2) :
    AzNodePost env projects st st2 := by
  refine ⟨?_, ?_, ?_, ?_, ?_⟩
  · rcases h1.visExt with ⟨t1, ht1⟩
    rcases h2.visExt with ⟨t2, ht2⟩
    exact ⟨t1 ++ t2, by rw [ht2, ht1, List.append_assoc]⟩
  · intro k t ht
    rcases h1.mapMono k t ht with ⟨t', ht'⟩
    exact h2.mapMono k t' ht'
  · intro k hk
    rw [h2.cacheVisOld k (azNodePostMono h1 k hk), h1.cacheVisOld k hk]
  · intro p l' hl c hc hcv
    rcases h2.hierOld p l' hl c hc (azNodePostMono h1 c hcv) with ⟨l1, hl1, hc1⟩
    exact h1.hierOld p l1 hl1 c hc1 hcv
  · intro k hk hk'
    by_cases hmid : k ∈ st1.visited
    · rcases h1.newCov k hmid hk' with ⟨hcov, hclo⟩
      refine ⟨fun ht => ?_, fun cs hcs c hc => azNodePostMono h2 _ (hclo cs hcs c hc)⟩
      rcases hcov ht with ⟨t, htk⟩
      exact h2.mapMono k t htk
    · exact h2.newCov k hk hmid

theorem azNodeToLoop {env : AzEnv} {projects : List String} {id : String} {st st' : AzState}
    (h : AzNodePost env projects st st') : AzLoopPost env projects id st st' := by
  refine ⟨h.visExt, h.mapMono, fun k hk _ => h.cacheVisOld k hk,
    fun p l' hl c hc hcv _ => h.hierOld p l' hl c hc hcv, h.newCov⟩

theorem azLoopPostRefl (env : AzEnv) (projects : List String) (id : String) (st : AzState) :
    AzLoopPost env projects id st st :=
  azNodeToLoop (azNodePostRefl env projects st)

theorem azLoopPostComp {env : AzEnv} {projects : List String} {id : String}
    {st st1 st2 : AzState} (h1 : AzLoopPost env projects id st st1)
    (h2 : AzLoopPost env projects id st1 st2) : AzLoopPost env projects id st st2 := by
  refine ⟨?_, ?_, ?_, ?_, ?_⟩
  · rcases h1.visExt with ⟨t1, ht1⟩
    rcases h2.visExt with ⟨t2, ht2⟩
    exact ⟨t1 ++ t2, by rw [ht2, ht1, List.append_assoc]⟩
  · intro k t ht
    rcases h1.mapMono k t ht with ⟨t', ht'⟩
    exact h2.mapMono k t' ht'
  · intro k hk hne
    rw [h2.cacheVisOld k (azLoopPostMono h1 k hk) hne, h1.cacheVisOld k hk hne]
  · intro p l' hl c hc hcv hne
    rcases h2.hierOld p l' hl c hc (azLoopPostMono h1 c hcv) hne with ⟨l1, hl1, hc1⟩
    exact h1.hierOld p l1 hl1 c hc1 hcv hne
  · intro k hk hk'
    by_cases hmid : k ∈ st1.visited
    · rcases h1.newCov k hmid hk' with ⟨hcov, hclo⟩
      refine ⟨fun ht => ?_, fun cs hcs c hc => azLoopPostMono h2 _ (hclo cs hcs c hc)⟩
      rcases hcov ht with ⟨t, htk⟩
      exact h2.mapMono k t htk
    · exact h2.newCov k hk hmid

theorem containsFalseNotMem {l : List String} {a : String}
    (h : l.contains a = false) : a ∉ l := by
  intro hm
  rw [List.contains_eq_any_beq] at h
  exact absurd (List.any_eq_true.mpr ⟨a, hm, beq_self_eq_true a⟩) (by simp [h])

theorem notMemContainsFalse {l : List String} {a : String}
    (h : a ∉ l) : l.contains a = false := by
  cases hc : l.contains a
  · rfl
  · rw [List.contains_eq_any_beq] at hc
    rcases List.any_eq_true.mp hc with ⟨b, hb, hab⟩
    exact absurd ((eq_of_beq hab) ▸ hb) h

theorem lookupAppendSelf {α β : Type} [BEq α] [LawfulBEq α] {l : List (α × β)} {k : α}
    {v : β} (h : List.lookup k l = none) : List.lookup k (l ++ [(k, v)]) = some v := by
  induction l with
  | nil => simp [List.lookup]
  | cons e es ih =>
    rw [List.cons_append]
    rw [List.lookup] at h
    by_cases hk : (k == e.1) = true
    · simp [hk] at h
    · have hk' : (k == e.1) = false := by simpa using hk
      simp only [List.lookup, hk'] at h ⊢
      exact ih h

theorem azIdsHoare (env : AzEnv) (projects : List String) (fuel : Nat)
    (Hnode : ∀ id st st', collectWorkItem env projects fuel id st = .ok st' →
      AzInv env projects st →
      AzInv env projects st' ∧ AzNodePost env projects st st' ∧ id ∈ st'.visited) :
    ∀ cs st st', runSeq (fun c s => collectWorkItem env projects fuel c s) cs st = .ok st' →
      AzInv env projects st →
      AzInv env projects st' ∧ AzNodePost env projects st st' ∧ ∀ c ∈ cs, c ∈ st'.visited := by
  intro cs
  induction cs with
  | nil =>
    intro st st' h hinv
    simp only [runSeq] at h
    obtain hst := by simpa using h
    subst hst
    exact ⟨hinv, azNodePostRefl env projects st, by simp⟩
  | cons c cs' ih =>
    intro st st' h hinv
    simp only [runSeq] at h
    split at h
    · simp at h
    · next stm hstep =>
      obtain ⟨hinv1, hpost1, hc1⟩ := Hnode c st stm hstep hinv
      obtain ⟨hinv2, hpost2, hall2⟩ := ih stm st' h hinv1
      refine ⟨hinv2, azNodePostComp hpost1 hpost2, ?_⟩
      intro x hx
      rcases List.mem_cons.mp hx with hx | hx
      · subst hx; exact azNodePostMono hpost2 _ hc1
      · exact hall2 x hx

theorem azHierCore {env : AzEnv} {projects : List String} {s : AzState} {id : String}
    (hkey : Option String) (cur : List String)
    (hinv : AzInv env projects s) (hid : id ∈ s.visited)
    (hidL : ∀ p l, (p, l) ∈ s.hierarchy → id ∈ l → azEffKey env projects id = some p)
    (hkeyEff : azEffKey env projects id = some hkey)
    (hidT : azEffTruthy env projects id)
    (hcur : cur = [] ∨ (hkey, cur) ∈ s.hierarchy)
    (hmem : id ∉ cur) :
    (((dictSet s.hierarchy hkey (cur ++ [id])).map Prod.fst).Nodup) ∧
    (∀ pl ∈ dictSet s.hierarchy hkey (cur ++ [id]), pl.2.Nodup) ∧
    (∀ pl ∈ dictSet s.hierarchy hkey (cur ++ [id]), ∀ c ∈ pl.2,
      c ∈ s.visited ∧ azEffTruthy env projects c) ∧
    (∀ c p1 p2 l1 l2, (p1, l1) ∈ dictSet s.hierarchy hkey (cur ++ [id]) →
      (p2, l2) ∈ dictSet s.hierarchy hkey (cur ++ [id]) → c ∈ l1 → c ∈ l2 → p1 = p2) ∧
    (∀ p l, (p, l) ∈ dictSet s.hierarchy hkey (cur ++ [id]) → id ∈ l →
      azEffKey env projects id = some p) ∧
    (∀ p l', (p, l') ∈ dictSet s.hierarchy hkey (cur ++ [id]) → ∀ c ∈ l', c ≠ id →
      ∃ l, (p, l) ∈ s.hierarchy ∧ c ∈ l) := by
  have hcurm : ∀ c ∈ cur, (hkey, cur) ∈ s.hierarchy := by
    intro c hc
    rcases hcur with h | h
    · subst h; cases hc
    · exact h
  have hnew : ∀ e : Option String × List String,
      e ∈ dictSet s.hierarchy hkey (cur ++ [id]) →
      e = (hkey, cur ++ [id]) ∨ (e ∈ s.hierarchy ∧ e.1 ≠ hkey) := fun e he => dictSetMem he
  refine ⟨dictSetKeysNodup hinv.hierKeysNodup, ?_, ?_, ?_, ?_, ?_⟩
  · intro pl hpl
    rcases hnew pl hpl with he | ⟨he, _⟩
    · subst he
      show (cur ++ [id]).Nodup
      rw [List.nodup_append]
      refine ⟨?_, List.nodup_singleton id, ?_⟩
      · rcases hcur with h | h
        · subst h; simp
        · exact hinv.hierListsNodup _ h
      · intro a ha hb
        rw [List.mem_singleton] at hb
        subst hb
        exact hmem ha
    · exact hinv.hierListsNodup pl he
  · intro pl hpl c hc
    rcases hnew pl hpl with he | ⟨he, _⟩
    · subst he
      simp only at hc
      rcases List.mem_append.mp hc with h1 | h1
      · exact hinv.hierMemOK _ (hcurm c h1) c h1
      · rw [List.mem_singleton] at h1
        subst h1
        exact ⟨hid, hidT⟩
    · exact hinv.hierMemOK pl he c hc
  · intro c p1 p2 l1 l2 h1 h2 hc1 hc2
    rcases hnew (p1, l1) h1 with he1 | ⟨he1, hne1⟩ <;>
      rcases hnew (p2, l2) h2 with he2 | ⟨he2, hne2⟩
    · rw [Prod.mk.injEq] at he1 he2
      rw [he1.1, he2.1]
    · exfalso
      rw [Prod.mk.injEq] at he1
      obtain ⟨hp1, hl1⟩ := he1
      subst hl1
      refine hne2 ?_
      show p2 = hkey
      rcases List.mem_append.mp hc1 with hx | hx
      · exact hinv.oneParent c p2 hkey l2 cur he2 (hcurm c hx) hc2 hx
      · rw [List.mem_singleton] at hx
        subst hx
        have := hidL p2 l2 he2 hc2
        rw [hkeyEff] at this
        injection this with this
        exact this.symm
    · exfalso
      rw [Prod.mk.injEq] at he2
      obtain ⟨hp2, hl2⟩ := he2
      subst hl2
      refine hne1 ?_
      show p1 = hkey
      rcases List.mem_append.mp hc2 with hx | hx
      · exact hinv.oneParent c p1 hkey l1 cur he1 (hcurm c hx) hc1 hx
      · rw [List.mem_singleton] at hx
        subst hx
        have := hidL p1 l1 he1 hc1
        rw [hkeyEff] at this
        injection this with this
        exact this.symm
    · exact hinv.oneParent c p1 p2 l1 l2 he1 he2 hc1 hc2
  · intro p l hl hil
    rcases hnew (p, l) hl with he | ⟨he, _⟩
    · rw [Prod.mk.injEq] at he
      rw [he.1]
      exact hkeyEff
    · exact hidL p l he hil
  · intro p l' hl c hc hcne
    rcases hnew (p, l') hl with he | ⟨he, _⟩
    · rw [Prod.mk.injEq] at he
      obtain ⟨hp, hl'⟩ := he
      subst hl'
      rcases List.mem_append.mp hc with h1 | h1
      · exact ⟨cur, hp ▸ hcurm c h1, h1⟩
      · rw [List.mem_singleton] at h1
        exact absurd h1 hcne
    · exact ⟨l', he, hc⟩

theorem azHierStep {env : AzEnv} {projects : List String} {s : AzState} {id : String}
    {parent? : Option String}
    (hinv : AzInv env projects s) (hid : id ∈ s.visited)
    (hidL : ∀ p l, (p, l) ∈ s.hierarchy → id ∈ l → azEffKey env projects id = some p)
    (hkeyEff : azEffKey env projects id = some (azParentKey parent?))
    (hidT : azEffTruthy env projects id) :
    AzInv env projects (azHierUpdate s id parent?) ∧
    (azHierUpdate s id parent?).visited = s.visited ∧
    (azHierUpdate s id parent?).work_item_map = s.work_item_map ∧
    (azHierUpdate s id parent?).cache = s.cache ∧
    (∀ p l, (p, l) ∈ (azHierUpdate s id parent?).hierarchy → id ∈ l →
      azEffKey env projects id = some p) ∧
    (∀ p l', (p, l') ∈ (azHierUpdate s id parent?).hierarchy → ∀ c ∈ l', c ≠ id →
      ∃ l, (p, l) ∈ s.hierarchy ∧ c ∈ l) := by
  have hform : azHierUpdate s id parent? = { s with hierarchy :=
      (if id ∈ (List.lookup (azParentKey parent?) s.hierarchy).getD [] then s.hierarchy
       else dictSet s.hierarchy (azParentKey parent?)
         ((List.lookup (azParentKey parent?) s.hierarchy).getD [] ++ [id])) } := by
    unfold azHierUpdate
    rfl
  rw [hform]
  rcases hlk : List.lookup (azParentKey parent?) s.hierarchy with _ | cur0
  · simp only [Option.getD_none, List.nil_append]
    rw [if_neg (by simp)]
    obtain ⟨q1, q2, q3, q4, q5, q6⟩ :=
      azHierCore (azParentKey parent?) [] hinv hid hidL hkeyEff hidT (Or.inl rfl) (by simp)
    simp only [List.nil_append] at q1 q2 q3 q4 q5 q6
    exact ⟨⟨hinv.vNodup, hinv.cacheVis, hinv.cacheEff, hinv.mapKeysNodup, hinv.mapOK,
      q1, q2, q3, q4⟩, trivial, trivial, trivial, q5, q6⟩
  · simp only [Option.getD_some]
    by_cases hmem : id ∈ cur0
    · rw [if_pos hmem]
      exact ⟨⟨hinv.vNodup, hinv.cacheVis, hinv.cacheEff, hinv.mapKeysNodup, hinv.mapOK,
        hinv.hierKeysNodup, hinv.hierListsNodup, hinv.hierMemOK, hinv.oneParent⟩,
        trivial, trivial, trivial, hidL, fun p l' hl c hc _ => ⟨l', hl, hc⟩⟩
    · rw [if_neg hmem]
      obtain ⟨q1, q2, q3, q4, q5, q6⟩ :=
        azHierCore (azParentKey parent?) cur0 hinv hid hidL hkeyEff hidT
          (Or.inr (lookupMem hlk)) hmem
      exact ⟨⟨hinv.vNodup, hinv.cacheVis, hinv.cacheEff, hinv.mapKeysNodup, hinv.mapOK,
        q1, q2, q3, q4⟩, trivial, trivial, trivial, q5, q6⟩

theorem azSuccOf {env : AzEnv} {projects : List String} {id : String} {b : Json}
    {fwd : List String} {parent? : Option String}
    (hb : azEffBody env projects id = some b) (ht : b.truthy = true)
    (hr : azRelationsOf b = .ok (fwd, parent?)) :
    azSucc env projects id = some (fwd.filter isDigits) ∧
    azEffKey env projects id = some (azParentKey parent?) ∧
    azEffTruthy env projects id := by
  refine ⟨?_, ?_, ⟨b, hb, ht⟩⟩
  · unfold azSucc
    rw [hb]
    simp [ht, hr]
  · unfold azEffKey
    rw [hb]
    simp [ht, hr]

theorem azProjHoare (env : AzEnv) (projects : List String) (fuel : Nat) (id : String)
    (Hnode : ∀ id0 st st', collectWorkItem env projects fuel id0 st = .ok st' →
      AzInv env projects st →
      AzInv env projects st' ∧ AzNodePost env projects st st' ∧ id0 ∈ st'.visited) :
    ∀ ps st st',
      runSeq (fun proj s =>
        match azFetch env proj id s with
        | .error e => .error (.py e)
        | .ok (none, s1) => .ok s1
        | .ok (some d, s1) =>
          if d.truthy then
            match azItemText d with
            | .error e => .error (.py e)
            | .ok text =>
              let s2 := { s1 with work_item_map := dictSet s1.work_item_map id text }
              match azRelationsOf d with
              | .error e => .error (.py e)
              | .ok (fwd, parent?) =>
                let related := fwd.filter (fun c => isDigits c && !s2.visited.contains c)
                let s3 := azHierUpdate s2 id parent?
                runSeq (fun c s' => collectWorkItem env projects fuel c s') related s3
          else .ok s1) ps st = .ok st' →
      AzInv env projects st →
      id ∈ st.visited →
      ((List.lookup id st.cache = none ∧ azEffBody env ps id = azEffBody env projects id) ∨
       (∃ b, List.lookup id st.cache = some b ∧ azEffBody env projects id = some b ∧
         (b.truthy = true →
           (∃ t, List.lookup id st.work_item_map = some t) ∧
           (∀ fwd parent?, azRelationsOf b = .ok (fwd, parent?) →
              ∀ c ∈ fwd.filter isDigits, c ∈ st.visited)))) →
      (∀ p l, (p, l) ∈ st.hierarchy → id ∈ l → azEffKey env projects id = some p) →
      AzInv env projects st' ∧ AzLoopPost env projects id st st' ∧
      (∀ p l, (p, l) ∈ st'.hierarchy → id ∈ l → azEffKey env projects id = some p) ∧
      (azEffTruthy env projects id → ∃ t, List.lookup id st'.work_item_map = some t) ∧
      (∀ cs, azSucc env projects id = some cs → ∀ c ∈ cs, c ∈ st'.visited) := by
  intro ps
  induction ps with
  | nil =>
    intro st st' h hinv hid hctx hidL
    simp only [runSeq] at h
    obtain hst := by simpa using h
    subst hst
    refine ⟨hinv, azLoopPostRefl env projects id st, hidL, ?_, ?_⟩
    · rintro ⟨b0, hb0, ht0⟩
      rcases hctx with ⟨_, hfb⟩ | ⟨b, hcb, hfb, himp⟩
      · have hn : azEffBody env projects id = none := by rw [← hfb]; rfl
        rw [hn] at hb0
        cases hb0
      · rw [hfb] at hb0
        injection hb0 with hb0
        subst hb0
        exact (himp ht0).1
    · intro cs hcs c hc
      rcases hctx with ⟨_, hfb⟩ | ⟨b, hcb, hfb, himp⟩
      · have hn : azEffBody env projects id = none := by rw [← hfb]; rfl
        unfold azSucc at hcs
        rw [hn] at hcs
        cases hcs
      · rcases htr : b.truthy with _ | _
        · have hn : azSucc env projects id = none := by
            unfold azSucc
            rw [hfb]
            simp [htr]
          rw [hn] at hcs
          cases hcs
        · rcases hrel : azRelationsOf b with e | fp
          · have hn : azSucc env projects id = none := by
              unfold azSucc
              rw [hfb]
              simp [htr, hrel]
            rw [hn] at hcs
            cases hcs
          · obtain ⟨fwd, parent?⟩ := fp
            obtain ⟨hsucc, _, _⟩ := azSuccOf hfb htr hrel
            rw [hsucc] at hcs
            injection hcs with hcs
            subst hcs
            exact (himp htr).2 fwd parent? hrel c hc
  | cons p ps' ih =>
    intro st st' h hinv hid hctx hidL
    simp only [runSeq] at h
    split at h
    · simp at h
    · next s1' hstep =>
      split at hstep
      · simp at hstep
      · next s1 hfe =>
        obtain hs := by simpa using hstep
        subst hs
        rcases azFetchCases hfe with ⟨b, _, hrb, _⟩ | ⟨hcnone, hs200, _, hseq⟩ |
          ⟨j, _, _, _, hrj, _⟩
        · cases hrb
        · subst hseq
          rcases hctx with ⟨hcn, hfb⟩ | ⟨b, hcb, _, _⟩
          · have hctx' : List.lookup id st.cache = none ∧
                azEffBody env ps' id = azEffBody env projects id := by
              refine ⟨hcn, ?_⟩
              rw [← hfb, azEffBodySkip hs200]
            obtain ⟨hinv', hpost', hidL', hmap', hkids'⟩ :=
              ih _ _ h ⟨hinv.vNodup, hinv.cacheVis, hinv.cacheEff, hinv.mapKeysNodup,
                hinv.mapOK, hinv.hierKeysNodup, hinv.hierListsNodup, hinv.hierMemOK,
                hinv.oneParent⟩ hid (Or.inl hctx') hidL
            refine ⟨hinv', azLoopPostComp ?_ hpost', hidL', hmap', hkids'⟩
            exact ⟨⟨[], by simp⟩, fun k t ht => ⟨t, ht⟩, fun k _ _ => rfl,
              fun p0 l' hl c hc _ _ => ⟨l', hl, hc⟩, fun k hk hk' => absurd hk hk'⟩
          · rw [hcb] at hcnone
            cases hcnone
        · cases hrj
      · next d s1 hfe =>
        rcases azFetchCases hfe with ⟨b, hcb, hrb, hs1⟩ | ⟨_, _, hrn, _⟩ |
          ⟨j, hcnone, hs200, hbody, hrj, hs1⟩
        · -- cache hit: d = b, s1 = st
          injection hrb with hrb
          subst hrb
          subst s1
          rcases hctx with ⟨hcn, _⟩ | ⟨b0, hcb0, hfb, himp⟩
          · rw [hcb] at hcn
            cases hcn
          · rw [hcb] at hcb0
            injection hcb0 with hcb0
            subst hcb0
            have heff : azEffBody env projects id = some d := hfb
            split at hstep
            · next hdt =>
              split at hstep
              · simp at hstep
              · next text htext =>
                split at hstep
                · simp at hstep
                · next fwd parent? hrel =>
                  have hidT : azEffTruthy env projects id := ⟨d, heff, hdt⟩
                  have hkeyEff : azEffKey env projects id =
                      some (azParentKey parent?) := by
                    unfold azEffKey
                    rw [heff]
                    simp [hdt, hrel]
                  have hsucc : azSucc env projects id = some (fwd.filter isDigits) := by
                    unfold azSucc
                    rw [heff]
                    simp [hdt, hrel]
                  obtain ⟨_, hikids⟩ := himp hdt
                  have hinv2 : AzInv env projects
                      { st with work_item_map := dictSet st.work_item_map id text } := by
                    refine ⟨hinv.vNodup, hinv.cacheVis, hinv.cacheEff,
                      dictSetKeysNodup hinv.mapKeysNodup, ?_, hinv.hierKeysNodup,
                      hinv.hierListsNodup, hinv.hierMemOK, hinv.oneParent⟩
                    intro k t ht
                    by_cases hk : k = id
                    · subst hk
                      exact ⟨hid, hidT⟩
                    · rw [dictSetLookupOther hk] at ht
                      exact hinv.mapOK k t ht
                  obtain ⟨hinv3, hv3, hm3, hc3, hidL3, hold3⟩ :=
                    azHierStep hinv2 hid
                      (fun p0 l hl hil => hidL p0 l hl hil) hkeyEff hidT
                  obtain ⟨hinv4, hpostC, hallC⟩ :=
                    azIdsHoare env projects fuel
                      (fun a b c hh hi => Hnode a b c hh hi) _ _ _ hstep hinv3
                  have hid3 : id ∈ (azHierUpdate
                      { st with work_item_map := dictSet st.work_item_map id text }
                      id parent?).visited := by rw [hv3]; exact hid
                  have hcache4 : List.lookup id s1'.cache = some d := by
                    rw [hpostC.cacheVisOld id hid3, hc3]
                    exact hcb
                  have hmap4 : ∃ t, List.lookup id s1'.work_item_map = some t := by
                    refine hpostC.mapMono id text ?_
                    rw [hm3]
                    show List.lookup id (dictSet st.work_item_map id text) = some text
                    exact dictSetLookupSelf
                  have hkids4 : ∀ c ∈ List.filter isDigits fwd, c ∈ s1'.visited := by
                    intro c hc
                    refine azNodePostMono hpostC _ ?_
                    rw [hv3]
                    exact hikids fwd parent? hrel c hc
                  have hidL4 : ∀ p0 l, (p0, l) ∈ s1'.hierarchy → id ∈ l →
                      azEffKey env projects id = some p0 := by
                    intro p0 l hl hil
                    obtain ⟨l0, hl0, hil0⟩ := hpostC.hierOld p0 l hl id hil hid3
                    exact hidL3 p0 l0 hl0 hil0
                  have himp' : d.truthy = true →
                      (∃ t, List.lookup id s1'.work_item_map = some t) ∧
                      (∀ fwd0 parent?0, azRelationsOf d = .ok (fwd0, parent?0) →
                        ∀ c ∈ List.filter isDigits fwd0, c ∈ s1'.visited) := by
                    intro _
                    refine ⟨hmap4, ?_⟩
                    intro fwd0 p0 hrel0 c hc
                    rw [hrel] at hrel0
                    injection hrel0 with hrel0
                    rw [Prod.mk.injEq] at hrel0
                    obtain ⟨hf, _⟩ := hrel0
                    subst hf
                    exact hkids4 c hc
                  obtain ⟨hinv', hpost', hidL', hmap', hkids'⟩ :=
                    ih _ _ h hinv4 (azNodePostMono hpostC _ hid3)
                      (Or.inr ⟨d, hcache4, heff, himp'⟩) hidL4
                  have hchunk : AzLoopPost env projects id st
                      (azHierUpdate { st with work_item_map := dictSet st.work_item_map id text }
                        id parent?) := by
                    refine ⟨⟨[], by rw [hv3]; simp⟩, ?_, ?_, ?_, ?_⟩
                    · intro k t ht
                      rw [hm3]
                      by_cases hk : k = id
                      · subst hk
                        exact ⟨text, dictSetLookupSelf⟩
                      · exact ⟨t, by rw [show List.lookup k (dictSet st.work_item_map id text)
                          = List.lookup k st.work_item_map from dictSetLookupOther hk]; exact ht⟩
                    · intro k _ _
                      rw [hc3]
                    · intro p0 l' hl c hc hcv hcne
                      exact hold3 p0 l' hl c hc hcne
                    · intro k hk hk'
                      rw [hv3] at hk
                      exact absurd hk hk'
                  exact ⟨hinv',
                    azLoopPostComp hchunk (azLoopPostComp (azNodeToLoop hpostC) hpost'),
                    hidL', hmap', hkids'⟩
            · next hdt =>
              obtain hs := by simpa using hstep
              subst hs
              obtain ⟨hinv', hpost', hidL', hmap', hkids'⟩ :=
                ih _ _ h hinv hid (Or.inr ⟨d, hcb, hfb, himp⟩) hidL
              refine ⟨hinv', azLoopPostComp (azLoopPostRefl env projects id st) hpost',
                hidL', hmap', hkids'⟩
        · cases hrn
        · -- fresh 200 fetch: d = j
          injection hrj with hrj
          subst hrj
          rcases hctx with ⟨hcn, hfb⟩ | ⟨b0, hcb0, _, _⟩
          · have heff : azEffBody env projects id = some d := by
              rw [← hfb, azEffBodyHit ps' hs200, hbody]
            have hvis1 : s1.visited = st.visited := by rw [hs1]
            have hmap1 : s1.work_item_map = st.work_item_map := by rw [hs1]
            have hhier1 : s1.hierarchy = st.hierarchy := by rw [hs1]
            have hcache1 : List.lookup id s1.cache = some d := by
              rw [hs1]
              show List.lookup id (st.cache ++ [(id, d)]) = some d
              exact lookupAppendSelf hcnone
            have hid1 : id ∈ s1.visited := by rw [hvis1]; exact hid
            have hinv1 : AzInv env projects s1 := by
              rw [hs1]
              refine ⟨hinv.vNodup, ?_, ?_, hinv.mapKeysNodup, hinv.mapOK, hinv.hierKeysNodup,
                hinv.hierListsNodup, hinv.hierMemOK, hinv.oneParent⟩
              · intro k j0 hk
                rcases lookupAppendOne hk with h1 | ⟨hka, _⟩
                · exact hinv.cacheVis k j0 h1
                · subst hka
                  exact hid
              · intro k j0 hk
                rcases lookupAppendOne hk with h1 | ⟨hka, hjv⟩
                · exact hinv.cacheEff k j0 h1
                · subst hka
                  subst hjv
                  exact heff
            have hidL1 : ∀ p0 l, (p0, l) ∈ s1.hierarchy → id ∈ l →
                azEffKey env projects id = some p0 := by
              rw [hhier1]
              exact hidL
            have hchunk1 : AzLoopPost env projects id st s1 := by
              refine ⟨⟨[], by rw [hvis1]; simp⟩, ?_, ?_, ?_, ?_⟩
              · intro k t ht
                rw [hmap1]
                exact ⟨t, ht⟩
              · intro k _ hkne
                rw [hs1]
                show List.lookup k (st.cache ++ [(id, d)]) = List.lookup k st.cache
                exact lookupAppendNe hkne
              · intro p0 l' hl c hc _ _
                rw [hhier1] at hl
                exact ⟨l', hl, hc⟩
              · intro k hk hk'
                rw [hvis1] at hk
                exact absurd hk hk'
            split at hstep
            · next hdt =>
              split at hstep
              · simp at hstep
              · next text htext =>
                split at hstep
                · simp at hstep
                · next fwd parent? hrel =>
                  have hidT : azEffTruthy env projects id := ⟨d, heff, hdt⟩
                  have hkeyEff : azEffKey env projects id = some (azParentKey parent?) := by
                    unfold azEffKey
                    rw [heff]
                    simp [hdt, hrel]
                  have hsucc : azSucc env projects id = some (fwd.filter isDigits) := by
                    unfold azSucc
                    rw [heff]
                    simp [hdt, hrel]
                  have hinv2 : AzInv env projects
                      { s1 with work_item_map := dictSet s1.work_item_map id text } := by
                    refine ⟨hinv1.vNodup, hinv1.cacheVis, hinv1.cacheEff,
                      dictSetKeysNodup hinv1.mapKeysNodup, ?_, hinv1.hierKeysNodup,
                      hinv1.hierListsNodup, hinv1.hierMemOK, hinv1.oneParent⟩
                    intro k t ht
                    by_cases hk : k = id
                    · subst hk
                      exact ⟨hid1, hidT⟩
                    · rw [show List.lookup k (dictSet s1.work_item_map id text)
                          = List.lookup k s1.work_item_map from dictSetLookupOther hk] at ht
                      exact hinv1.mapOK k t ht
                  obtain ⟨hinv3, hv3, hm3, hc3, hidL3, hold3⟩ :=
                    azHierStep hinv2 hid1
                      (fun p0 l hl hil => hidL1 p0 l hl hil) hkeyEff hidT
                  obtain ⟨hinv4, hpostC, hallC⟩ :=
                    azIdsHoare env projects fuel
                      (fun a b c hh hi => Hnode a b c hh hi) _ _ _ hstep hinv3
                  have hid3 : id ∈ (azHierUpdate
                      { s1 with work_item_map := dictSet s1.work_item_map id text }
                      id parent?).visited := by rw [hv3]; exact hid1
                  have hcache4 : List.lookup id s1'.cache = some d := by
                    rw [hpostC.cacheVisOld id hid3, hc3]
                    exact hcache1
                  have hmap4 : ∃ t, List.lookup id s1'.work_item_map = some t := by
                    refine hpostC.mapMono id text ?_
                    rw [hm3]
                    show List.lookup id (dictSet s1.work_item_map id text) = some text
                    exact dictSetLookupSelf
                  have hkids4 : ∀ c ∈ List.filter isDigits fwd, c ∈ s1'.visited := by
                    intro c hc
                    rw [List.mem_filter] at hc
                    obtain ⟨hcf, hcd⟩ := hc
                    by_cases hcv : c ∈ st.visited
                    · refine azNodePostMono hpostC _ ?_
                      rw [hv3, hvis1]
                      exact hcv
                    · refine hallC c ?_
                      rw [List.mem_filter]
                      refine ⟨hcf, ?_⟩
                      rw [Bool.and_eq_true]
                      refine ⟨hcd, ?_⟩
                      show (!s1.visited.contains c) = true
                      have hnc : s1.visited.contains c = false := by
                        rw [hvis1]
                        exact notMemContainsFalse hcv
                      rw [hnc]
                      rfl
                  have hidL4 : ∀ p0 l, (p0, l) ∈ s1'.hierarchy → id ∈ l →
                      azEffKey env projects id = some p0 := by
                    intro p0 l hl hil
                    obtain ⟨l0, hl0, hil0⟩ := hpostC.hierOld p0 l hl id hil hid3
                    exact hidL3 p0 l0 hl0 hil0
                  have himp' : d.truthy = true →
                      (∃ t, List.lookup id s1'.work_item_map = some t) ∧
                      (∀ fwd0 parent?0, azRelationsOf d = .ok (fwd0, parent?0) →
                        ∀ c ∈ List.filter isDigits fwd0, c ∈ s1'.visited) := by
                    intro _
                    refine ⟨hmap4, ?_⟩
                    intro fwd0 p0 hrel0 c hc
                    rw [hrel] at hrel0
                    injection hrel0 with hrel0
                    rw [Prod.mk.injEq] at hrel0
                    obtain ⟨hf, _⟩ := hrel0
                    subst hf
                    exact hkids4 c hc
                  obtain ⟨hinv', hpost', hidL', hmap', hkids'⟩ :=
                    ih _ _ h hinv4 (azNodePostMono hpostC _ hid3)
                      (Or.inr ⟨d, hcache4, heff, himp'⟩) hidL4
                  have hchunk : AzLoopPost env projects id s1
                      (azHierUpdate { s1 with work_item_map := dictSet s1.work_item_map id text }
                        id parent?) := by
                    refine ⟨⟨[], by rw [hv3]; simp⟩, ?_, ?_, ?_, ?_⟩
                    · intro k t ht
                      rw [hm3]
                      by_cases hk : k = id
                      · subst hk
                        exact ⟨text, dictSetLookupSelf⟩
                      · exact ⟨t, by rw [show List.lookup k (dictSet s1.work_item_map id text)
                          = List.lookup k s1.work_item_map from dictSetLookupOther hk]; exact ht⟩
                    · intro k _ _
                      rw [hc3]
                    · intro p0 l' hl c hc hcv hcne
                      exact hold3 p0 l' hl c hc hcne
                    · intro k hk hk'
                      rw [hv3] at hk
                      exact absurd hk hk'
                  exact ⟨hinv',
                    azLoopPostComp hchunk1
                      (azLoopPostComp hchunk
                        (azLoopPostComp (azNodeToLoop hpostC) hpost')),
                    hidL', hmap', hkids'⟩
            · next hdt =>
              obtain hs := by simpa using hstep
              subst hs
              obtain ⟨hinv', hpost', hidL', hmap', hkids'⟩ :=
                ih _ _ h hinv1 hid1
                  (Or.inr ⟨d, hcache1, heff, fun htr => absurd htr hdt⟩) hidL1
              exact ⟨hinv', azLoopPostComp hchunk1 hpost', hidL', hmap', hkids'⟩
          · rw [hcb0] at hcnone
            cases hcnone

theorem azNodeHoare (env : AzEnv) (projects : List String) :
    ∀ (fuel : Nat) (id : String) (st st' : AzState),
    collectWorkItem env projects fuel id st = .ok st' →
    AzInv env projects st →
    AzInv env projects st' ∧ AzNodePost env projects st st' ∧ id ∈ st'.visited := by
  intro fuel
  induction fuel with
  | zero =>
    intro id st st' h _
    simp [collectWorkItem] at h
  | succ fuel ih =>
    intro id st st' h hinv
    simp only [collectWorkItem] at h
    split at h
    · next hguard =>
      obtain hst := by simpa using h
      subst hst
      exact ⟨hinv, azNodePostRefl env projects st, hguard⟩
    · next hguard =>
      have hvis1 : ({ st with visited := st.visited ++ [id] } : AzState).visited
          = st.visited ++ [id] := rfl
      have hinv1 : AzInv env projects { st with visited := st.visited ++ [id] } := by
        refine ⟨?_, ?_, hinv.cacheEff, hinv.mapKeysNodup, ?_, hinv.hierKeysNodup,
          hinv.hierListsNodup, ?_, hinv.oneParent⟩
        · rw [hvis1, List.nodup_append]
          refine ⟨hinv.vNodup, List.nodup_singleton id, ?_⟩
          intro a ha hb
          rw [List.mem_singleton] at hb
          subst hb
          exact hguard ha
        · intro k j hk
          exact List.mem_append_left _ (hinv.cacheVis k j hk)
        · intro k t hk
          obtain ⟨h1, h2⟩ := hinv.mapOK k t hk
          exact ⟨List.mem_append_left _ h1, h2⟩
        · intro pl hpl c hc
          obtain ⟨h1, h2⟩ := hinv.hierMemOK pl hpl c hc
          exact ⟨List.mem_append_left _ h1, h2⟩
      have hcache0 : List.lookup id st.cache = none := by
        rcases hc : List.lookup id st.cache with _ | j
        · rfl
        · exact absurd (hinv.cacheVis id j hc) hguard
      obtain ⟨hinv', hpost', hidL', hmap', hkids'⟩ :=
        azProjHoare env projects fuel id (fun a b c hh hi => ih a b c hh hi)
          projects _ st' h hinv1
          (by rw [hvis1]; exact List.mem_append_right _ (List.mem_singleton_self id))
          (Or.inl ⟨hcache0, rfl⟩)
          (by
            intro p0 l hl hil
            exact absurd (hinv.hierMemOK (p0, l) hl id hil).1 hguard)
      have hid' : id ∈ st'.visited := by
        refine azLoopPostMono hpost' _ ?_
        rw [hvis1]
        exact List.mem_append_right _ (List.mem_singleton_self id)
      refine ⟨hinv', ⟨?_, ?_, ?_, ?_, ?_⟩, hid'⟩
      · rcases hpost'.visExt with ⟨t, ht⟩
        refine ⟨[id] ++ t, ?_⟩
        rw [ht, hvis1, List.append_assoc]
      · exact hpost'.mapMono
      · intro k hk
        have hkne : k ≠ id := fun he => hguard (he ▸ hk)
        exact hpost'.cacheVisOld k (by rw [hvis1]; exact List.mem_append_left _ hk) hkne
      · intro p l' hl c hc hcv
        have hcne : c ≠ id := fun he => hguard (he ▸ hcv)
        exact hpost'.hierOld p l' hl c hc
          (by rw [hvis1]; exact List.mem_append_left _ hcv) hcne
      · intro k hk hknot
        by_cases hki : k = id
        · subst hki
          exact ⟨hmap', hkids'⟩
        · refine hpost'.newCov k hk ?_
          rw [hvis1]
          intro hmem
          rcases List.mem_append.mp hmem with h1 | h1
          · exact hknot h1
          · rw [List.mem_singleton] at h1
            exact hki h1

theorem azIterFacts (env : AzEnv) (projects : List String) (fuel : Nat) (id p : String)
    (Hnode : ∀ id0 st st', collectWorkItem env projects fuel id0 st = .ok st' →
      AzInv env projects st →
      AzInv env projects st' ∧ AzNodePost env projects st st' ∧ id0 ∈ st'.visited) :
    ∀ (ps' : List String) (st s1' : AzState),
      ((match azFetch env p id st with
       | .error e => .error (.py e)
       | .ok (none, s1) => .ok s1
       | .ok (some d, s1) =>
         if d.truthy then
           match azItemText d with
           | .error e => .error (.py e)
           | .ok text =>
             let s2 := { s1 with work_item_map := dictSet s1.work_item_map id text }
             match azRelationsOf d with
             | .error e => .error (.py e)
             | .ok (fwd, parent?) =>
               let related := fwd.filter (fun c => isDigits c && !s2.visited.contains c)
               let s3 := azHierUpdate s2 id parent?
               runSeq (fun c s' => collectWorkItem env projects fuel c s') related s3
         else .ok s1 : Except RunErr AzState)) = .ok s1' →
      AzInv env projects st → id ∈ st.visited →
      ((List.lookup id st.cache = none ∧
         azEffBody env (p :: ps') id = azEffBody env projects id) ∨
       (∃ b, List.lookup id st.cache = some b ∧ azEffBody env projects id = some b ∧
         (b.truthy = true →
           (∃ t, List.lookup id st.work_item_map = some t) ∧
           (∀ fwd parent?, azRelationsOf b = .ok (fwd, parent?) →
              ∀ c ∈ fwd.filter isDigits, c ∈ st.visited)))) →
      (∀ p0 l, (p0, l) ∈ st.hierarchy → id ∈ l → azEffKey env projects id = some p0) →
      AzInv env projects s1' ∧ AzLoopPost env projects id st s1' ∧ id ∈ s1'.visited ∧
      ((List.lookup id s1'.cache = none ∧
         azEffBody env ps' id = azEffBody env projects id) ∨
       (∃ b, List.lookup id s1'.cache = some b ∧ azEffBody env projects id = some b ∧
         (b.truthy = true →
           (∃ t, List.lookup id s1'.work_item_map = some t) ∧
           (∀ fwd parent?, azRelationsOf b = .ok (fwd, parent?) →
              ∀ c ∈ fwd.filter isDigits, c ∈ s1'.visited)))) ∧
      (∀ p0 l, (p0, l) ∈ s1'.hierarchy → id ∈ l → azEffKey env projects id = some p0) := by
  intro ps' st s1' hstep hinv hid hctx hidL
  split at hstep
  · simp at hstep
  · next s1 hfe =>
    obtain hs := by simpa using hstep
    subst hs
    rcases azFetchCases hfe with ⟨b, _, hrb, _⟩ | ⟨hcnone, hs200, _, hseq⟩ |
      ⟨j, _, _, _, hrj, _⟩
    · cases hrb
    · subst hseq
      rcases hctx with ⟨hcn, hfb⟩ | ⟨b, hcb, _, _⟩
      · refine ⟨⟨hinv.vNodup, hinv.cacheVis, hinv.cacheEff, hinv.mapKeysNodup,
          hinv.mapOK, hinv.hierKeysNodup, hinv.hierListsNodup, hinv.hierMemOK,
          hinv.oneParent⟩,
          ⟨⟨[], by simp⟩, fun k t ht => ⟨t, ht⟩, fun k _ _ => rfl,
            fun p0 l' hl c hc _ _ => ⟨l', hl, hc⟩, fun k hk hk' => absurd hk hk'⟩,
          hid, Or.inl ⟨hcn, ?_⟩, hidL⟩
        rw [← hfb, azEffBodySkip hs200]
      · rw [hcb] at hcnone
        cases hcnone
    · cases hrj
  · next d s1 hfe =>
    rcases azFetchCases hfe with ⟨b, hcb, hrb, hs1⟩ | ⟨_, _, hrn, _⟩ |
      ⟨j, hcnone, hs200, hbody, hrj, hs1⟩
    · -- cache hit: d = b, s1 = st
      injection hrb with hrb
      subst hrb
      subst s1
      rcases hctx with ⟨hcn, _⟩ | ⟨b0, hcb0, hfb, himp⟩
      · rw [hcb] at hcn
        cases hcn
      · rw [hcb] at hcb0
        injection hcb0 with hcb0
        subst hcb0
        have heff : azEffBody env projects id = some d := hfb
        split at hstep
        · next hdt =>
          split at hstep
          · simp at hstep
          · next text htext =>
            split at hstep
            · simp at hstep
            · next fwd parent? hrel =>
              have hidT : azEffTruthy env projects id := ⟨d, heff, hdt⟩
              have hkeyEff : azEffKey env projects id = some (azParentKey parent?) := by
                unfold azEffKey
                rw [heff]
                simp [hdt, hrel]
              obtain ⟨_, hikids⟩ := himp hdt
              have hinv2 : AzInv env projects
                  { st with work_item_map := dictSet st.work_item_map id text } := by
                refine ⟨hinv.vNodup, hinv.cacheVis, hinv.cacheEff,
                  dictSetKeysNodup hinv.mapKeysNodup, ?_, hinv.hierKeysNodup,
                  hinv.hierListsNodup, hinv.hierMemOK, hinv.oneParent⟩
                intro k t ht
                by_cases hk : k = id
                · subst hk
                  exact ⟨hid, hidT⟩
                · rw [show List.lookup k (dictSet st.work_item_map id text)
                      = List.lookup k st.work_item_map from dictSetLookupOther hk] at ht
                  exact hinv.mapOK k t ht
              obtain ⟨hinv3, hv3, hm3, hc3, hidL3, hold3⟩ :=
                azHierStep hinv2 hid
                  (fun p0 l hl hil => hidL p0 l hl hil) hkeyEff hidT
              obtain ⟨hinv4, hpostC, hallC⟩ :=
                azIdsHoare env projects fuel
                  (fun a b c hh hi => Hnode a b c hh hi) _ _ _ hstep hinv3
              have hid3 : id ∈ (azHierUpdate
                  { st with work_item_map := dictSet st.work_item_map id text }
                  id parent?).visited := by rw [hv3]; exact hid
              have hcache4 : List.lookup id s1'.cache = some d := by
                rw [hpostC.cacheVisOld id hid3, hc3]
                exact hcb
              have hmap4 : ∃ t, List.lookup id s1'.work_item_map = some t := by
                refine hpostC.mapMono id text ?_
                rw [hm3]
                show List.lookup id (dictSet st.work_item_map id text) = some text
                exact dictSetLookupSelf
              have hkids4 : ∀ c ∈ List.filter isDigits fwd, c ∈ s1'.visited := by
                intro c hc
                refine azNodePostMono hpostC _ ?_
                rw [hv3]
                exact hikids fwd parent? hrel c hc
              have hidL4 : ∀ p0 l, (p0, l) ∈ s1'.hierarchy → id ∈ l →
                  azEffKey env projects id = some p0 := by
                intro p0 l hl hil
                obtain ⟨l0, hl0, hil0⟩ := hpostC.hierOld p0 l hl id hil hid3
                exact hidL3 p0 l0 hl0 hil0
              have himp' : d.truthy = true →
                  (∃ t, List.lookup id s1'.work_item_map = some t) ∧
                  (∀ fwd0 parent?0, azRelationsOf d = .ok (fwd0, parent?0) →
                    ∀ c ∈ fwd0.filter isDigits, c ∈ s1'.visited) := by
                intro _
                refine ⟨hmap4, ?_⟩
                intro fwd0 p0 hrel0 c hc
                rw [hrel] at hrel0
                injection hrel0 with hrel0
                rw [Prod.mk.injEq] at hrel0
                obtain ⟨hf, _⟩ := hrel0
                subst hf
                exact hkids4 c hc
              have hchunk : AzLoopPost env projects id st
                  (azHierUpdate { st with work_item_map := dictSet st.work_item_map id text }
                    id parent?) := by
                refine ⟨⟨[], by rw [hv3]; simp⟩, ?_, ?_, ?_, ?_⟩
                · intro k t ht
                  rw [hm3]
                  by_cases hk : k = id
                  · subst hk
                    exact ⟨text, dictSetLookupSelf⟩
                  · exact ⟨t, by rw [show List.lookup k (dictSet st.work_item_map id text)
                      = List.lookup k st.work_item_map from dictSetLookupOther hk]; exact ht⟩
                · intro k _ _
                  rw [hc3]
                · intro p0 l' hl c hc hcv hcne
                  exact hold3 p0 l' hl c hc hcne
                · intro k hk hk'
                  rw [hv3] at hk
                  exact absurd hk hk'
              exact ⟨hinv4, azLoopPostComp hchunk (azNodeToLoop hpostC),
                azNodePostMono hpostC _ hid3,
                Or.inr ⟨d, hcache4, heff, himp'⟩, hidL4⟩
        · next hdt =>
          obtain hs := by simpa using hstep
          subst hs
          exact ⟨hinv, azLoopPostRefl env projects id st, hid,
            Or.inr ⟨d, hcb, hfb, himp⟩, hidL⟩
    · cases hrn
    · -- fresh 200 fetch
      injection hrj with hrj
      subst hrj
      rcases hctx with ⟨hcn, hfb⟩ | ⟨b0, hcb0, _, _⟩
      · have heff : azEffBody env projects id = some d := by
          rw [← hfb, azEffBodyHit ps' hs200, hbody]
        have hvis1 : s1.visited = st.visited := by rw [hs1]
        have hmap1 : s1.work_item_map = st.work_item_map := by rw [hs1]
        have hhier1 : s1.hierarchy = st.hierarchy := by rw [hs1]
        have hcache1 : List.lookup id s1.cache = some d := by
          rw [hs1]
          show List.lookup id (st.cache ++ [(id, d)]) = some d
          exact lookupAppendSelf hcnone
        have hid1 : id ∈ s1.visited := by rw [hvis1]; exact hid
        have hinv1 : AzInv env projects s1 := by
          rw [hs1]
          refine ⟨hinv.vNodup, ?_, ?_, hinv.mapKeysNodup, hinv.mapOK, hinv.hierKeysNodup,
            hinv.hierListsNodup, hinv.hierMemOK, hinv.oneParent⟩
          · intro k j0 hk
            rcases lookupAppendOne hk with h1 | ⟨hka, _⟩
            · exact hinv.cacheVis k j0 h1
            · subst hka
              exact hid
          · intro k j0 hk
            rcases lookupAppendOne hk with h1 | ⟨hka, hjv⟩
            · exact hinv.cacheEff k j0 h1
            · subst hka
              subst hjv
              exact heff
        have hidL1 : ∀ p0 l, (p0, l) ∈ s1.hierarchy → id ∈ l →
            azEffKey env projects id = some p0 := by
          rw [hhier1]
          exact hidL
        have hchunk1 : AzLoopPost env projects id st s1 := by
          refine ⟨⟨[], by rw [hvis1]; simp⟩, ?_, ?_, ?_, ?_⟩
          · intro k t ht
            rw [hmap1]
            exact ⟨t, ht⟩
          · intro k _ hkne
            rw [hs1]
            show List.lookup k (st.cache ++ [(id, d)]) = List.lookup k st.cache
            exact lookupAppendNe hkne
          · intro p0 l' hl c hc _ _
            rw [hhier1] at hl
            exact ⟨l', hl, hc⟩
          · intro k hk hk'
            rw [hvis1] at hk
            exact absurd hk hk'
        split at hstep
        · next hdt =>
          split at hstep
          · simp at hstep
          · next text htext =>
            split at hstep
            · simp at hstep
            · next fwd parent? hrel =>
              have hidT : azEffTruthy env projects id := ⟨d, heff, hdt⟩
              have hkeyEff : azEffKey env projects id = some (azParentKey parent?) := by
                unfold azEffKey
                rw [heff]
                simp [hdt, hrel]
              have hinv2 : AzInv env projects
                  { s1 with work_item_map := dictSet s1.work_item_map id text } := by
                refine ⟨hinv1.vNodup, hinv1.cacheVis, hinv1.cacheEff,
                  dictSetKeysNodup hinv1.mapKeysNodup, ?_, hinv1.hierKeysNodup,
                  hinv1.hierListsNodup, hinv1.hierMemOK, hinv1.oneParent⟩
                intro k t ht
                by_cases hk : k = id
                · subst hk
                  exact ⟨hid1, hidT⟩
                · rw [show List.lookup k (dictSet s1.work_item_map id text)
                      = List.lookup k s1.work_item_map from dictSetLookupOther hk] at ht
                  exact hinv1.mapOK k t ht
              obtain ⟨hinv3, hv3, hm3, hc3, hidL3, hold3⟩ :=
                azHierStep hinv2 hid1
                  (fun p0 l hl hil => hidL1 p0 l hl hil) hkeyEff hidT
              obtain ⟨hinv4, hpostC, hallC⟩ :=
                azIdsHoare env projects fuel
                  (fun a b c hh hi => Hnode a b c hh hi) _ _ _ hstep hinv3
              have hid3 : id ∈ (azHierUpdate
                  { s1 with work_item_map := dictSet s1.work_item_map id text }
                  id parent?).visited := by rw [hv3]; exact hid1
              have hcache4 : List.lookup id s1'.cache = some d := by
                rw [hpostC.cacheVisOld id hid3, hc3]
                exact hcache1
              have hmap4 : ∃ t, List.lookup id s1'.work_item_map = some t := by
                refine hpostC.mapMono id text ?_
                rw [hm3]
                show List.lookup id (dictSet s1.work_item_map id text) = some text
                exact dictSetLookupSelf
              have hkids4 : ∀ c ∈ List.filter isDigits fwd, c ∈ s1'.visited := by
                intro c hc
                rw [List.mem_filter] at hc
                obtain ⟨hcf, hcd⟩ := hc
                by_cases hcv : c ∈ st.visited
                · refine azNodePostMono hpostC _ ?_
                  rw [hv3, hvis1]
                  exact hcv
                · refine hallC c ?_
                  rw [List.mem_filter]
                  refine ⟨hcf, ?_⟩
                  rw [Bool.and_eq_true]
                  refine ⟨hcd, ?_⟩
                  show (!s1.visited.contains c) = true
                  have hnc : s1.visited.contains c = false := by
                    rw [hvis1]
                    exact notMemContainsFalse hcv
                  rw [hnc]
                  rfl
              have hidL4 : ∀ p0 l, (p0, l) ∈ s1'.hierarchy → id ∈ l →
                  azEffKey env projects id = some p0 := by
                intro p0 l hl hil
                obtain ⟨l0, hl0, hil0⟩ := hpostC.hierOld p0 l hl id hil hid3
                exact hidL3 p0 l0 hl0 hil0
              have himp' : d.truthy = true →
                  (∃ t, List.lookup id s1'.work_item_map = some t) ∧
                  (∀ fwd0 parent?0, azRelationsOf d = .ok (fwd0, parent?0) →
                    ∀ c ∈ fwd0.filter isDigits, c ∈ s1'.visited) := by
                intro _
                refine ⟨hmap4, ?_⟩
                intro fwd0 p0 hrel0 c hc
                rw [hrel] at hrel0
                injection hrel0 with hrel0
                rw [Prod.mk.injEq] at hrel0
                obtain ⟨hf, _⟩ := hrel0
                subst hf
                exact hkids4 c hc
              have hchunk : AzLoopPost env projects id s1
                  (azHierUpdate { s1 with work_item_map := dictSet s1.work_item_map id text }
                    id parent?) := by
                refine ⟨⟨[], by rw [hv3]; simp⟩, ?_, ?_, ?_, ?_⟩
                · intro k t ht
                  rw [hm3]
                  by_cases hk : k = id
                  · subst hk
                    exact ⟨text, dictSetLookupSelf⟩
                  · exact ⟨t, by rw [show List.lookup k (dictSet s1.work_item_map id text)
                      = List.lookup k s1.work_item_map from dictSetLookupOther hk]; exact ht⟩
                · intro k _ _
                  rw [hc3]
                · intro p0 l' hl c hc hcv hcne
                  exact hold3 p0 l' hl c hc hcne
                · intro k hk hk'
                  rw [hv3] at hk
                  exact absurd hk hk'
              exact ⟨hinv4,
                azLoopPostComp hchunk1 (azLoopPostComp hchunk (azNodeToLoop hpostC)),
                azNodePostMono hpostC _ hid3,
                Or.inr ⟨d, hcache4, heff, himp'⟩, hidL4⟩
        · next hdt =>
          obtain hs := by simpa using hstep
          subst hs
          exact ⟨hinv1, hchunk1, hid1,
            Or.inr ⟨d, hcache1, heff, fun htr => absurd htr hdt⟩, hidL1⟩
      · rw [hcb0] at hcnone
        cases hcnone

theorem azWFResp {env : AzEnv} {p id : String} (hwf : azEnvWF env = true)
    (hs : ((azResp env p id).status == 200) = true) :
    ∃ b, (azResp env p id).body? = some b ∧ azItemOK b = true := by
  unfold azResp at hs ⊢
  rcases hl : List.lookup (p, id) env with _ | r
  · rw [hl] at hs
    simp only [Option.getD_none] at hs
    exact absurd hs (by decide)
  · rw [hl] at hs
    simp only [Option.getD_some] at hs ⊢
    have hmem : ((p, id), r) ∈ env := lookupMem hl
    unfold azEnvWF at hwf
    rw [List.all_eq_true] at hwf
    have hx := hwf _ hmem
    simp only at hx
    rw [if_pos hs] at hx
    rcases hb : r.body? with _ | b
    · rw [hb] at hx
      cases hx
    · rw [hb] at hx
      exact ⟨b, rfl, hx⟩

theorem azWFEff {env : AzEnv} {projects : List String} {id : String} {b : Json}
    (hwf : azEnvWF env = true) (h : azEffBody env projects id = some b) :
    azItemOK b = true := by
  unfold azEffBody at h
  rcases hf : projects.find? (fun p => (azResp env p id).status == 200) with _ | p
  · rw [hf] at h
    exact Option.noConfusion h
  · rw [hf] at h
    have h2 : (azResp env p id).body? = some b := h
    have hs := List.find?_some hf
    obtain ⟨b', hb', hok⟩ := azWFResp hwf hs
    rw [h2] at hb'
    injection hb' with hb'
    rw [hb']
    exact hok

theorem azUniverseOfEff {env : AzEnv} {projects : List String} {root id : String} {b : Json}
    (h : azEffBody env projects id = some b) :
    ∀ c ∈ azBodyLinks b, c ∈ azUniverse env root := by
  intro c hc
  unfold azEffBody at h
  rcases hf : projects.find? (fun p => (azResp env p id).status == 200) with _ | p
  · rw [hf] at h
    exact Option.noConfusion h
  · rw [hf] at h
    have h2 : ((List.lookup (p, id) env).getD ⟨404, none⟩).body? = some b := h
    rcases hl : List.lookup (p, id) env with _ | r
    · rw [hl] at h2
      simp only [Option.getD_none] at h2
      exact Option.noConfusion h2
    · rw [hl] at h2
      simp only [Option.getD_some] at h2
      have hmem : ((p, id), r) ∈ env := lookupMem hl
      unfold azUniverse
      refine List.mem_cons_of_mem _ ?_
      clear hl hf h
      induction env with
      | nil => cases hmem
      | cons e es ih =>
        rw [List.foldr_cons]
        rcases List.mem_cons.mp hmem with he | he
        · subst he
          simp only [h2]
          exact List.mem_append_left _ hc
        · exact List.mem_append_right _ (ih he)

theorem azFetchNoErr {env : AzEnv} {p id : String} {st : AzState} {em : String}
    (hwf : azEnvWF env = true) (h : azFetch env p id st = .error em) : False := by
  unfold azFetch at h
  split at h
  · simp at h
  · split at h
    · next hs =>
      split at h
      · simp at h
      · next hb =>
        obtain ⟨b, hb', _⟩ := azWFResp hwf hs
        rw [hb] at hb'
        cases hb'
    · simp at h

theorem azIdsNoErr (env : AzEnv) (projects : List String) (root : String) (fuel : Nat)
    (HnodeNE : ∀ id0 st e, AzInv env projects st → id0 ∈ azUniverse env root →
      ((azUniverse env root).filter (fun k => decide (k ∉ st.visited))).length < fuel →
      collectWorkItem env projects fuel id0 st = .error e → False) :
    ∀ (cs : List String) (st : AzState) (e : RunErr), AzInv env projects st →
      (∀ c ∈ cs, c ∈ azUniverse env root) →
      ((azUniverse env root).filter (fun k => decide (k ∉ st.visited))).length < fuel →
      runSeq (fun c s => collectWorkItem env projects fuel c s) cs st = .error e → False := by
  intro cs
  induction cs with
  | nil =>
    intro st e _ _ _ h
    simp [runSeq] at h
  | cons c cs' ih =>
    intro st e hinv hcov hlen h
    simp only [runSeq] at h
    split at h
    · next e0 hstep =>
      exact HnodeNE c st e0 hinv (hcov c (List.mem_cons_self _ _)) hlen hstep
    · next s1 hstep =>
      obtain ⟨hinv1, hpost1, _⟩ := azNodeHoare env projects fuel c st s1 hstep hinv
      have hlen1 :
          ((azUniverse env root).filter (fun k => decide (k ∉ s1.visited))).length < fuel := by
        refine Nat.lt_of_le_of_lt (filterImpLen ?_ _) hlen
        intro x hx
        simp only [decide_eq_true_eq] at hx ⊢
        exact fun hmem => hx (azNodePostMono hpost1 _ hmem)
      exact ih s1 e hinv1 (fun a ha => hcov a (List.mem_cons_of_mem _ ha)) hlen1 h

theorem azIterNoErr (env : AzEnv) (projects : List String) (root : String) (fuel : Nat)
    (id p : String) (hwf : azEnvWF env = true)
    (HnodeNE : ∀ id0 st e, AzInv env projects st → id0 ∈ azUniverse env root →
      ((azUniverse env root).filter (fun k => decide (k ∉ st.visited))).length < fuel →
      collectWorkItem env projects fuel id0 st = .error e → False) :
    ∀ (ps' : List String) (st : AzState) (e : RunErr),
      ((match azFetch env p id st with
       | .error e => .error (.py e)
       | .ok (none, s1) => .ok s1
       | .ok (some d, s1) =>
         if d.truthy then
           match azItemText d with
           | .error e => .error (.py e)
           | .ok text =>
             let s2 := { s1 with work_item_map := dictSet s1.work_item_map id text }
             match azRelationsOf d with
             | .error e => .error (.py e)
             | .ok (fwd, parent?) =>
               let related := fwd.filter (fun c => isDigits c && !s2.visited.contains c)
               let s3 := azHierUpdate s2 id parent?
               runSeq (fun c s' => collectWorkItem env projects fuel c s') related s3
         else .ok s1 : Except RunErr AzState)) = .error e →
      AzInv env projects st → id ∈ st.visited →
      ((List.lookup id st.cache = none ∧
         azEffBody env (p :: ps') id = azEffBody env projects id) ∨
       (∃ b, List.lookup id st.cache = some b ∧ azEffBody env projects id = some b ∧
         (b.truthy = true →
           (∃ t, List.lookup id st.work_item_map = some t) ∧
           (∀ fwd parent?, azRelationsOf b = .ok (fwd, parent?) →
              ∀ c ∈ fwd.filter isDigits, c ∈ st.visited)))) →
      (∀ p0 l, (p0, l) ∈ st.hierarchy → id ∈ l → azEffKey env projects id = some p0) →
      ((azUniverse env root).filter (fun k => decide (k ∉ st.visited))).length < fuel →
      False := by
  intro ps' st e hstep hinv hid hctx hidL hlen
  split at hstep
  · next em hfe =>
    exact azFetchNoErr hwf hfe
  · next s1 hfe =>
    simp at hstep
  · next d s1 hfe =>
    rcases azFetchCases hfe with ⟨b, hcb, hrb, hs1⟩ | ⟨_, _, hrn, _⟩ |
      ⟨j, hcnone, hs200, hbody, hrj, hs1⟩
    · -- cache hit: d = b, s1 = st
      injection hrb with hrb
      subst hrb
      subst s1
      have heff : azEffBody env projects id = some d := by
        rcases hctx with ⟨hcn, _⟩ | ⟨b0, hcb0, hfb, _⟩
        · rw [hcb] at hcn
          cases hcn
        · rw [hcb] at hcb0
          injection hcb0 with h0
          rw [h0]
          exact hfb
      have hok : azItemOK d = true := azWFEff hwf heff
      split at hstep
      · next hdt =>
        have hpy : pyOk (azItemText d) = true ∧ pyOk (azRelationsOf d) = true := by
          unfold azItemOK at hok
          rw [hdt] at hok
          simpa using hok
        split at hstep
        · next em htext =>
          have hp1 := hpy.1
          rw [htext] at hp1
          simp [pyOk] at hp1
        · next text htext =>
          split at hstep
          · next em hrel =>
            have hp2 := hpy.2
            rw [hrel] at hp2
            simp [pyOk] at hp2
          · next fwd parent? hrel =>
            have hidT : azEffTruthy env projects id := ⟨d, heff, hdt⟩
            have hkeyEff : azEffKey env projects id = some (azParentKey parent?) := by
              unfold azEffKey
              rw [heff]
              simp [hdt, hrel]
            have hinv2 : AzInv env projects
                { st with work_item_map := dictSet st.work_item_map id text } := by
              refine ⟨hinv.vNodup, hinv.cacheVis, hinv.cacheEff,
                dictSetKeysNodup hinv.mapKeysNodup, ?_, hinv.hierKeysNodup,
                hinv.hierListsNodup, hinv.hierMemOK, hinv.oneParent⟩
              intro k t ht
              by_cases hk : k = id
              · subst hk
                exact ⟨hid, hidT⟩
              · rw [show List.lookup k (dictSet st.work_item_map id text)
                    = List.lookup k st.work_item_map from dictSetLookupOther hk] at ht
                exact hinv.mapOK k t ht
            obtain ⟨hinv3, hv3, _, _, _, _⟩ :=
              azHierStep hinv2 hid
                (fun p0 l hl hil => hidL p0 l hl hil) hkeyEff hidT
            have hcov : ∀ c ∈ List.filter
                (fun c => isDigits c &&
                  !({ st with work_item_map := dictSet st.work_item_map id text }
                    : AzState).visited.contains c) fwd,
                c ∈ azUniverse env root := by
              intro c hc
              refine azUniverseOfEff heff c ?_
              unfold azBodyLinks
              rw [hrel]
              exact (List.mem_filter.mp hc).1
            have hlen3 : ((azUniverse env root).filter (fun k => decide (k ∉
                (azHierUpdate { st with work_item_map := dictSet st.work_item_map id text }
                  id parent?).visited))).length < fuel := by
              have hveq : (azHierUpdate
                  { st with work_item_map := dictSet st.work_item_map id text }
                  id parent?).visited = st.visited := hv3
              rw [hveq]
              exact hlen
            exact azIdsNoErr env projects root fuel HnodeNE _ _ e hinv3 hcov hlen3 hstep
      · next hdt =>
        simp at hstep
    · cases hrn
    · -- fresh 200
      injection hrj with hrj
      subst hrj
      have heff : azEffBody env projects id = some d := by
        rcases hctx with ⟨hcn, hfb⟩ | ⟨b0, hcb0, _, _⟩
        · rw [← hfb, azEffBodyHit ps' hs200, hbody]
        · rw [hcb0] at hcnone
          cases hcnone
      have hok : azItemOK d = true := azWFEff hwf heff
      have hvis1 : s1.visited = st.visited := by rw [hs1]
      have hid1 : id ∈ s1.visited := by rw [hvis1]; exact hid
      have hhier1 : s1.hierarchy = st.hierarchy := by rw [hs1]
      have hinv1 : AzInv env projects s1 := by
        rw [hs1]
        refine ⟨hinv.vNodup, ?_, ?_, hinv.mapKeysNodup, hinv.mapOK, hinv.hierKeysNodup,
          hinv.hierListsNodup, hinv.hierMemOK, hinv.oneParent⟩
        · intro k j0 hk
          rcases lookupAppendOne hk with h1 | ⟨hka, _⟩
          · exact hinv.cacheVis k j0 h1
          · subst hka
            exact hid
        · intro k j0 hk
          rcases lookupAppendOne hk with h1 | ⟨hka, hjv⟩
          · exact hinv.cacheEff k j0 h1
          · subst hka
            subst hjv
            exact heff
      have hidL1 : ∀ p0 l, (p0, l) ∈ s1.hierarchy → id ∈ l →
          azEffKey env projects id = some p0 := by
        rw [hhier1]
        exact hidL
      split at hstep
      · next hdt =>
        have hpy : pyOk (azItemText d) = true ∧ pyOk (azRelationsOf d) = true := by
          unfold azItemOK at hok
          rw [hdt] at hok
          simpa using hok
        split at hstep
        · next em htext =>
          have hp1 := hpy.1
          rw [htext] at hp1
          simp [pyOk] at hp1
        · next text htext =>
          split at hstep
          · next em hrel =>
            have hp2 := hpy.2
            rw [hrel] at hp2
            simp [pyOk] at hp2
          · next fwd parent? hrel =>
            have hidT : azEffTruthy env projects id := ⟨d, heff, hdt⟩
            have hkeyEff : azEffKey env projects id = some (azParentKey parent?) := by
              unfold azEffKey
              rw [heff]
              simp [hdt, hrel]
            have hinv2 : AzInv env projects
                { s1 with work_item_map := dictSet s1.work_item_map id text } := by
              refine ⟨hinv1.vNodup, hinv1.cacheVis, hinv1.cacheEff,
                dictSetKeysNodup hinv1.mapKeysNodup, ?_, hinv1.hierKeysNodup,
                hinv1.hierListsNodup, hinv1.hierMemOK, hinv1.oneParent⟩
              intro k t ht
              by_cases hk : k = id
              · subst hk
                exact ⟨hid1, hidT⟩
              · rw [show List.lookup k (dictSet s1.work_item_map id text)
                    = List.lookup k s1.work_item_map from dictSetLookupOther hk] at ht
                exact hinv1.mapOK k t ht
            obtain ⟨hinv3, hv3, _, _, _, _⟩ :=
              azHierStep hinv2 hid1
                (fun p0 l hl hil => hidL1 p0 l hl hil) hkeyEff hidT
            have hcov : ∀ c ∈ List.filter
                (fun c => isDigits c &&
                  !({ s1 with work_item_map := dictSet s1.work_item_map id text }
                    : AzState).visited.contains c) fwd,
                c ∈ azUniverse env root := by
              intro c hc
              refine azUniverseOfEff heff c ?_
              unfold azBodyLinks
              rw [hrel]
              exact (List.mem_filter.mp hc).1
            have hlen3 : ((azUniverse env root).filter (fun k => decide (k ∉
                (azHierUpdate { s1 with work_item_map := dictSet s1.work_item_map id text }
                  id parent?).visited))).length < fuel := by
              have hveq : (azHierUpdate
                  { s1 with work_item_map := dictSet s1.work_item_map id text }
                  id parent?).visited = st.visited := by
                rw [hv3]
                exact hvis1
              rw [hveq]
              exact hlen
            exact azIdsNoErr env projects root fuel HnodeNE _ _ e hinv3 hcov hlen3 hstep
      · next hdt =>
        simp at hstep

theorem azLoopNoErr (env : AzEnv) (projects : List String) (root : String) (fuel : Nat)
    (id : String) (hwf : azEnvWF env = true)
    (HnodeNE : ∀ id0 st e, AzInv env projects st → id0 ∈ azUniverse env root →
      ((azUniverse env root).filter (fun k => decide (k ∉ st.visited))).length < fuel →
      collectWorkItem env projects fuel id0 st = .error e → False) :
    ∀ (ps : List String) (st : AzState) (e : RunErr),
      runSeq (fun proj s =>
        match azFetch env proj id s with
        | .error e => .error (.py e)
        | .ok (none, s1) => .ok s1
        | .ok (some d, s1) =>
          if d.truthy then
            match azItemText d with
            | .error e => .error (.py e)
            | .ok text =>
              let s2 := { s1 with work_item_map := dictSet s1.work_item_map id text }
              match azRelationsOf d with
              | .error e => .error (.py e)
              | .ok (fwd, parent?) =>
                let related := fwd.filter (fun c => isDigits c && !s2.visited.contains c)
                let s3 := azHierUpdate s2 id parent?
                runSeq (fun c s' => collectWorkItem env projects fuel c s') related s3
          else .ok s1) ps st = .error e →
      AzInv env projects st →
      id ∈ st.visited →
      ((List.lookup id st.cache = none ∧ azEffBody env ps id = azEffBody env projects id) ∨
       (∃ b, List.lookup id st.cache = some b ∧ azEffBody env projects id = some b ∧
         (b.truthy = true →
           (∃ t, List.lookup id st.work_item_map = some t) ∧
           (∀ fwd parent?, azRelationsOf b = .ok (fwd, parent?) →
              ∀ c ∈ fwd.filter isDigits, c ∈ st.visited)))) →
      (∀ p0 l, (p0, l) ∈ st.hierarchy → id ∈ l → azEffKey env projects id = some p0) →
      ((azUniverse env root).filter (fun k => decide (k ∉ st.visited))).length < fuel →
      False := by
  intro ps
  induction ps with
  | nil =>
    intro st e h _ _ _ _ _
    simp [runSeq] at h
  | cons p ps' ih =>
    intro st e h hinv hid hctx hidL hlen
    simp only [runSeq] at h
    split at h
    · next e0 hstep =>
      exact azIterNoErr env projects root fuel id p hwf HnodeNE ps' st e0 hstep
        hinv hid hctx hidL hlen
    · next s1' hstep =>
      obtain ⟨hinv', hpost', hid', hctx', hidL'⟩ :=
        azIterFacts env projects fuel id p
          (fun a b c hh hi => azNodeHoare env projects fuel a b c hh hi)
          ps' st s1' hstep hinv hid hctx hidL
      have hlen' :
          ((azUniverse env root).filter (fun k => decide (k ∉ s1'.visited))).length < fuel := by
        refine Nat.lt_of_le_of_lt (filterImpLen ?_ _) hlen
        intro x hx
        simp only [decide_eq_true_eq] at hx ⊢
        exact fun hmem => hx (azLoopPostMono hpost' _ hmem)
      exact ih s1' e h hinv' hid' hctx' hidL' hlen'

theorem azNodeNoErr (env : AzEnv) (projects : List String) (root : String)
    (hwf : azEnvWF env = true) :
    ∀ (fuel : Nat) (id : String) (st : AzState) (e : RunErr),
      AzInv env projects st → id ∈ azUniverse env root →
      ((azUniverse env root).filter (fun k => decide (k ∉ st.visited))).length < fuel →
      collectWorkItem env projects fuel id st = .error e → False := by
  intro fuel
  induction fuel with
  | zero =>
    intro id st e _ _ hlen _
    cases hlen
  | succ fuel ih =>
    intro id st e hinv hU hlen h
    simp only [collectWorkItem] at h
    split at h
    · next hguard =>
      simp at h
    · next hguard =>
      have hvis1 : ({ st with visited := st.visited ++ [id] } : AzState).visited
          = st.visited ++ [id] := rfl
      have hinv1 : AzInv env projects { st with visited := st.visited ++ [id] } := by
        refine ⟨?_, ?_, hinv.cacheEff, hinv.mapKeysNodup, ?_, hinv.hierKeysNodup,
          hinv.hierListsNodup, ?_, hinv.oneParent⟩
        · rw [hvis1, List.nodup_append]
          refine ⟨hinv.vNodup, List.nodup_singleton id, ?_⟩
          intro a ha hb
          rw [List.mem_singleton] at hb
          subst hb
          exact hguard ha
        · intro k j hk
          exact List.mem_append_left _ (hinv.cacheVis k j hk)
        · intro k t hk
          obtain ⟨h1, h2⟩ := hinv.mapOK k t hk
          exact ⟨List.mem_append_left _ h1, h2⟩
        · intro pl hpl c hc
          obtain ⟨h1, h2⟩ := hinv.hierMemOK pl hpl c hc
          exact ⟨List.mem_append_left _ h1, h2⟩
      have hcache0 : List.lookup id st.cache = none := by
        rcases hc : List.lookup id st.cache with _ | j
        · rfl
        · exact absurd (hinv.cacheVis id j hc) hguard
      have hlen1 : ((azUniverse env root).filter (fun k => decide
          (k ∉ ({ st with visited := st.visited ++ [id] } : AzState).visited))).length
          < fuel := by
        have hlt := @filterImpLenLt String
          (fun k => decide (k ∉ st.visited))
          (fun k => decide
            (k ∉ ({ st with visited := st.visited ++ [id] } : AzState).visited))
          (fun x hx => by
            simp only [decide_eq_true_eq] at hx ⊢
            intro hmem
            exact hx (List.mem_append_left _ hmem))
          id _ hU (by simpa using hguard)
          (by simp only [decide_eq_false_iff_not, Decidable.not_not]
              exact List.mem_append_right _ (List.mem_singleton_self id))
        omega
      exact azLoopNoErr env projects root fuel id hwf
        (fun a b c hi hu hl hh => ih a b c hi hu hl hh)
        projects _ e h hinv1
        (by rw [hvis1]; exact List.mem_append_right _ (List.mem_singleton_self id))
        (Or.inl ⟨hcache0, rfl⟩)
        (by
          intro p0 l hl hil
          exact absurd (hinv.hierMemOK (p0, l) hl id hil).1 hguard)
        hlen1

theorem azProgress (env : AzEnv) (projects : List String) (root : String)
    (hwf : azEnvWF env = true) :
    ∀ (fuel : Nat) (id : String) (st : AzState),
      AzInv env projects st → id ∈ azUniverse env root →
      ((azUniverse env root).filter (fun k => decide (k ∉ st.visited))).length < fuel →
      ∃ st', collectWorkItem env projects fuel id st = .ok st' := by
  intro fuel id st hinv hU hlen
  cases hx : collectWorkItem env projects fuel id st with
  | error e => exact (azNodeNoErr env projects root hwf fuel id st e hinv hU hlen hx).elim
  | ok st' => exact ⟨st', rfl⟩

theorem jInvInit (env : JiraEnv) : JInv env initJiraState := by
  refine ⟨List.nodup_nil, ?_, List.nodup_nil, ?_⟩
  · intro k j h
    exact Option.noConfusion h
  · intro c hc
    exact absurd hc (List.not_mem_nil c)

theorem azInvInit (env : AzEnv) (projects : List String) :
    AzInv env projects initAzState := by
  refine ⟨List.nodup_nil, ?_, ?_, List.nodup_nil, ?_, List.nodup_nil, ?_, ?_, ?_⟩
  · intro k j h
    exact Option.noConfusion h
  · intro k j h
    exact Option.noConfusion h
  · intro k t h
    exact Option.noConfusion h
  · intro pl hpl
    exact absurd hpl (List.not_mem_nil pl)
  · intro pl hpl
    exact absurd hpl (List.not_mem_nil pl)
  · intro c p1 p2 l1 l2 h1 _ _ _
    exact absurd h1 (List.not_mem_nil _)

theorem jiraRunHoare {env : JiraEnv} {root : String} {xs : List TicketInfo}
    {st : JiraState} (h : jiraRun env root = .ok (xs, st)) :
    JInv env st ∧ JNodePost env initJiraState st xs ∧ root ∈ st.visited :=
  jiraNodeHoare env (jiraFuel env root) root none initJiraState xs st h
    (jInvInit env) (fun p hp => Option.noConfusion hp)

theorem azRunHoare {env : AzEnv} {projects : List String} {root : String}
    {st : AzState} (h : azRun env projects root = .ok st) :
    AzInv env projects st ∧ AzNodePost env projects initAzState st ∧ root ∈ st.visited :=
  azNodeHoare env projects (azFuel env root) root initAzState st h
    (azInvInit env projects)

theorem jiraRunExists (env : JiraEnv) (root : String) (hwf : jiraEnvWF env = true) :
    ∃ out, jiraRun env root = .ok out := by
  refine jiraProgress env root hwf (jiraFuel env root) root none initJiraState
    (jInvInit env) (List.mem_cons_self _ _) ?_
  show ((jiraUniverse env root).filter _).length < (jiraUniverse env root).length + 1
  exact Nat.lt_succ_of_le (List.length_filter_le _ _)

theorem azRunExists (env : AzEnv) (projects : List String) (root : String)
    (hwf : azEnvWF env = true) :
    ∃ st, azRun env projects root = .ok st := by
  refine azProgress env projects root hwf (azFuel env root) root initAzState
    (azInvInit env projects) (List.mem_cons_self _ _) ?_
  show ((azUniverse env root).filter _).length < (azUniverse env root).length + 1
  exact Nat.lt_succ_of_le (List.length_filter_le _ _)

theorem jiraReachVisited {env : JiraEnv} {root : String} {st : JiraState}
    {xs : List TicketInfo} (hpost : JNodePost env initJiraState st xs)
    (hroot : root ∈ st.visited) :
    ∀ k, JiraReach env root k → k ∈ st.visited := by
  intro k hk
  induction hk with
  | root => exact hroot
  | step hk hsucc hc ih =>
    exact (hpost.newCov _ ih (List.not_mem_nil _)).2 _ hsucc _ hc

theorem azReachVisited {env : AzEnv} {projects : List String} {root : String}
    {st : AzState} (hpost : AzNodePost env projects initAzState st)
    (hroot : root ∈ st.visited) :
    ∀ k, AzReach env projects root k → k ∈ st.visited := by
  intro k hk
  induction hk with
  | root => exact hroot
  | step hk hsucc hc ih =>
    exact (hpost.newCov _ ih (List.not_mem_nil _)).2 _ hsucc _ hc

theorem filterAndNil {α : Type} {p : α → Bool} {l : List α} (q : α → Bool)
    (h : List.filter p l = []) : List.filter (fun c => p c && q c) l = [] := by
  induction l with
  | nil => rfl
  | cons x xs ih =>
    rw [List.filter_cons] at h ⊢
    by_cases hp : p x = true
    · rw [if_pos hp] at h
      exact absurd h (by simp)
    · rw [if_neg hp] at h
      have hpq : ¬((p x && q x) = true) := by
        intro hh
        exact hp (Bool.and_elim_left hh)
      rw [if_neg hpq]
      exact ih h

theorem azHierUpdateNone1 {st : AzState} {id : String} {parent? : Option String}
    (hh : st.hierarchy = []) (hk : azParentKey parent? = none) :
    (azHierUpdate st id parent?).hierarchy = [(none, [id])] := by
  unfold azHierUpdate
  simp only [hk, hh, List.lookup_nil, Option.getD_none]
  rw [if_neg (List.not_mem_nil id)]
  rfl

theorem azHierUpdateNone2 {st : AzState} {id : String} {parent? : Option String}
    (hh : st.hierarchy = [(none, [id])]) (hk : azParentKey parent? = none) :
    (azHierUpdate st id parent?).hierarchy = [(none, [id])] := by
  unfold azHierUpdate
  simp only [hk, hh, List.lookup, beq_self_eq_true, Option.getD_some]
  rw [if_pos (List.mem_singleton_self id)]

theorem azLoneLoop (env : AzEnv) (projects : List String) (fuel : Nat) (root : String)
    (b : Json) (fwd : List String) (parent? : Option String)
    (heffF : azEffBody env projects root = some b) (hbt : b.truthy = true)
    (hrel : azRelationsOf b = .ok (fwd, parent?))
    (hkeyN : azParentKey parent? = none)
    (hfwd : List.filter isDigits fwd = []) :
    ∀ (ps : List String) (st st' : AzState),
      runSeq (fun proj s =>
        match azFetch env proj root s with
        | .error e => .error (.py e)
        | .ok (none, s1) => .ok s1
        | .ok (some d, s1) =>
          if d.truthy then
            match azItemText d with
            | .error e => .error (.py e)
            | .ok text =>
              let s2 := { s1 with work_item_map := dictSet s1.work_item_map root text }
              match azRelationsOf d with
              | .error e => .error (.py e)
              | .ok (fwd, parent?) =>
                let related := fwd.filter (fun c => isDigits c && !s2.visited.contains c)
                let s3 := azHierUpdate s2 root parent?
                runSeq (fun c s' => collectWorkItem env projects fuel c s') related s3
          else .ok s1) ps st = .ok st' →
      ((List.lookup root st.cache = none ∧
        azEffBody env ps root = azEffBody env projects root ∧ st.hierarchy = []) ∨
       (List.lookup root st.cache = some b ∧ st.hierarchy = [(none, [root])])) →
      st'.hierarchy = [(none, [root])] := by
  intro ps
  induction ps with
  | nil =>
    intro st st' h hphase
    simp only [runSeq] at h
    obtain hst := by simpa using h
    subst hst
    rcases hphase with ⟨_, heq, _⟩ | ⟨_, hh⟩
    · have h0 : azEffBody env ([] : List String) root = none := rfl
      rw [h0, heffF] at heq
      exact Option.noConfusion heq
    · exact hh
  | cons p ps' ih =>
    intro st st' h hphase
    simp only [runSeq] at h
    split at h
    · simp at h
    · next snext hstep =>
      split at hstep
      · simp at hstep
      · next s1 hfe =>
        obtain hs := by simpa using hstep
        subst hs
        rcases azFetchCases hfe with ⟨b2, _, hrb, _⟩ | ⟨hcn0, hs200, _, hseq⟩ |
          ⟨j, _, _, _, hrj, _⟩
        · cases hrb
        · subst hseq
          rcases hphase with ⟨hcn, heq, hh⟩ | ⟨hcb, _⟩
          · refine ih _ _ h (Or.inl ⟨hcn, ?_, hh⟩)
            rw [← heq, azEffBodySkip hs200]
          · rw [hcb] at hcn0
            cases hcn0
        · cases hrj
      · next d s1 hfe =>
        rcases azFetchCases hfe with ⟨b2, hcb2, hrb, hs1⟩ | ⟨_, _, hrn, _⟩ |
          ⟨j, hcn0, hs200, hbody, hrj, hs1⟩
        · -- cache hit
          injection hrb with hrb
          subst hrb
          subst s1
          rcases hphase with ⟨hcn, _, _⟩ | ⟨hcb, hh⟩
          · rw [hcb2] at hcn
            cases hcn
          · rw [hcb] at hcb2
            injection hcb2 with hcb2
            subst hcb2
            split at hstep
            · next hdt =>
              split at hstep
              · simp at hstep
              · next text htext =>
                split at hstep
                · simp at hstep
                · next fwd0 parent0 hrel0 =>
                  rw [hrel] at hrel0
                  injection hrel0 with hrel0
                  rw [Prod.mk.injEq] at hrel0
                  obtain ⟨hf0, hp0⟩ := hrel0
                  subst hf0
                  subst hp0
                  have hrelEmpty : List.filter (fun c => isDigits c &&
                      !({ st with work_item_map := dictSet st.work_item_map root text }
                        : AzState).visited.contains c) fwd = [] :=
                    filterAndNil _ hfwd
                  rw [hrelEmpty] at hstep
                  simp only [runSeq] at hstep
                  obtain hsn := by simpa using hstep
                  subst hsn
                  refine ih _ _ h (Or.inr ⟨hcb, azHierUpdateNone2 hh hkeyN⟩)
            · next hdt =>
              exact absurd hbt hdt
        · cases hrn
        · -- fresh 200
          injection hrj with hrj
          subst hrj
          rcases hphase with ⟨hcn, heq, hh⟩ | ⟨hcb, _⟩
          · have hdb : d = b := by
              have h1 : azEffBody env (p :: ps') root = some d := by
                rw [azEffBodyHit ps' hs200, hbody]
              rw [heq, heffF] at h1
              injection h1 with h1
              exact h1.symm
            subst hdb
            split at hstep
            · next hdt =>
              split at hstep
              · simp at hstep
              · next text htext =>
                split at hstep
                · simp at hstep
                · next fwd0 parent0 hrel0 =>
                  rw [hrel] at hrel0
                  injection hrel0 with hrel0
                  rw [Prod.mk.injEq] at hrel0
                  obtain ⟨hf0, hp0⟩ := hrel0
                  subst hf0
                  subst hp0
                  have hrelEmpty : List.filter (fun c => isDigits c &&
                      !({ s1 with work_item_map := dictSet s1.work_item_map root text }
                        : AzState).visited.contains c) fwd = [] :=
                    filterAndNil _ hfwd
                  rw [hrelEmpty] at hstep
                  simp only [runSeq] at hstep
                  obtain hsn := by simpa using hstep
                  subst hsn
                  have hh1 : s1.hierarchy = [] := by
                    rw [hs1]
                    exact hh
                  have hcb1 : List.lookup root s1.cache = some d := by
                    rw [hs1]
                    show List.lookup root (st.cache ++ [(root, d)]) = some d
                    exact lookupAppendSelf hcn0
                  refine ih _ _ h (Or.inr ⟨hcb1, azHierUpdateNone1 hh1 hkeyN⟩)
            · next hdt =>
              exact absurd hbt hdt
          · rw [hcb] at hcn0
            cases hcn0

theorem jiraLoneRun {env : JiraEnv} {root : String} {xs : List TicketInfo} {st : JiraState}
    (hJ : jiraRun env root = .ok (xs, st)) (hsucc : jiraSucc env root = some []) :
    st.hierarchy = [] := by
  rcases heb : jiraEnvBody env root with _ | b
  · simp [jiraSucc, heb] at hsucc
  · rcases hbt : b.truthy with _ | _
    · simp [jiraSucc, heb, hbt] at hsucc
    · rcases hlk : jiraLinkKeys b with e | ks
      · simp [jiraSucc, heb, hbt, hlk] at hsucc
      · have hks : ks = [] := by
          have h2 := hsucc
          simp [jiraSucc, heb, hbt, hlk] at h2
          exact h2
        subst hks
        simp only [jiraRun, jiraFuel, collectTicketInfo] at hJ
        rw [if_neg (show root ∉ initJiraState.visited from List.not_mem_nil root)] at hJ
        split at hJ
        · next st2 hfe =>
          have hv := fetch_val hfe (jInvInit env).cacheEff
          rw [heb] at hv
          cases hv
        · next td st2 hfe =>
          have hv := fetch_val hfe (jInvInit env).cacheEff
          rw [heb] at hv
          injection hv with hv
          subst hv
          have hkeep := fetch_keep hfe
          split at hJ
          · split at hJ
            · simp at hJ
            · next nf hnf =>
              split at hJ
              · next e hlk0 =>
                rw [hlk] at hlk0
                cases hlk0
              · next ks0 hlk0 =>
                rw [hlk] at hlk0
                injection hlk0 with hlk0
                subst hlk0
                simp only [List.filter_nil, runChildren] at hJ
                obtain ⟨_, hst⟩ := by simpa using hJ
                rw [← hst]
                exact hkeep.2.1.trans rfl
          · next hbt0 =>
            rw [hbt] at hbt0
            exact absurd rfl hbt0

theorem azLoneRun {env : AzEnv} {projects : List String} {root : String} {st : AzState}
    (hA : azRun env projects root = .ok st)
    (hsucc : azSucc env projects root = some [])
    (hkey : azEffKey env projects root = some none) :
    st.hierarchy = [(none, [root])] := by
  rcases heb : azEffBody env projects root with _ | b
  · simp [azSucc, heb] at hsucc
  · rcases hbt : b.truthy with _ | _
    · simp [azSucc, heb, hbt] at hsucc
    · rcases hr : azRelationsOf b with e | pr
      · simp [azSucc, heb, hbt, hr] at hsucc
      · obtain ⟨fwd, parent?⟩ := pr
        have hfwd : List.filter isDigits fwd = [] := by
          have h2 := hsucc
          simp [azSucc, heb, hbt, hr] at h2
          rw [List.filter_eq_nil_iff]
          intro a ha
          simp [h2 a ha]
        have hkeyN : azParentKey parent? = none := by
          have h2 := hkey
          simp [azEffKey, heb, hbt, hr] at h2
          exact h2
        have hA2 : (if root ∈ initAzState.visited then Except.ok initAzState
            else
              runSeq (fun proj s =>
                match azFetch env proj root s with
                | .error e => .error (.py e)
                | .ok (none, s1) => .ok s1
                | .ok (some d, s1) =>
                  if d.truthy then
                    match azItemText d with
                    | .error e => .error (.py e)
                    | .ok text =>
                      let s2 := { s1 with work_item_map := dictSet s1.work_item_map root text }
                      match azRelationsOf d with
                      | .error e => .error (.py e)
                      | .ok (fwd, parent?) =>
                        let related := fwd.filter (fun c => isDigits c && !s2.visited.contains c)
                        let s3 := azHierUpdate s2 root parent?
                        runSeq (fun c s' => collectWorkItem env projects
                          (azUniverse env root).length c s') related s3
                  else .ok s1) projects
                { initAzState with visited := initAzState.visited ++ [root] }) = .ok st := hA
        rw [if_neg (show root ∉ initAzState.visited from List.not_mem_nil root)] at hA2
        exact azLoneLoop env projects ((azUniverse env root).length) root b fwd parent?
          heb hbt hr hkeyN hfwd projects _ st hA2 (Or.inl ⟨rfl, rfl, rfl⟩)

/-- C1: on a well-formed Jira instance and a well-formed Azure organization
(cyclic link graphs included), both traversal drivers terminate normally,
the visited set never repeats a key (each key is processed exactly once),
every key reachable from the root is visited, and a key already in the
visited set is never re-processed: the guard returns immediately without
touching the state. -/
theorem c1_theorem (envJ : JiraEnv) (rootJ : String) (envA : AzEnv)
    (projects : List String) (rootA : String)
    (hwfJ : jiraEnvWF envJ = true) (hwfA : azEnvWF envA = true) :
    (∃ xs stJ, jiraRun envJ rootJ = .ok (xs, stJ) ∧ stJ.visited.Nodup ∧
      (∀ k, JiraReach envJ rootJ k → k ∈ stJ.visited)) ∧
    (∃ stA, azRun envA projects rootA = .ok stA ∧ stA.visited.Nodup ∧
      (∀ k, AzReach envA projects rootA k → k ∈ stA.visited)) ∧
    (∀ fuel key parent st0, key ∈ st0.visited →
      collectTicketInfo envJ (fuel + 1) key parent st0 = .ok ([], st0)) ∧
    (∀ fuel id st0, id ∈ st0.visited →
      collectWorkItem envA projects (fuel + 1) id st0 = .ok st0) := by
  refine ⟨?_, ?_, ?_, ?_⟩
  · obtain ⟨⟨xs, stJ⟩, hrun⟩ := jiraRunExists envJ rootJ hwfJ
    obtain ⟨hinv, hpost, hroot⟩ := jiraRunHoare hrun
    exact ⟨xs, stJ, hrun, hinv.vNodup, jiraReachVisited hpost hroot⟩
  · obtain ⟨stA, hrun⟩ := azRunExists envA projects rootA hwfA
    obtain ⟨hinv, hpost, hroot⟩ := azRunHoare hrun
    exact ⟨stA, hrun, hinv.vNodup, azReachVisited hpost hroot⟩
  · intro fuel key parent st0 h
    simp [collectTicketInfo, h]
  · intro fuel id st0 h
    simp [collectWorkItem, h]

/-- C1 witness: the theorem applied to the cyclic two-ticket Jira instance
and the cyclic two-item Azure organization, with both well-formedness
hypotheses discharged by evaluation. -/
theorem c1_witness :
    jiraEnvWF envCycJ = true ∧ azEnvWF azEnvCyc = true ∧
    ((∃ xs stJ, jiraRun envCycJ "A" = .ok (xs, stJ) ∧ stJ.visited.Nodup ∧
      (∀ k, JiraReach envCycJ "A" k → k ∈ stJ.visited)) ∧
    (∃ stA, azRun azEnvCyc ["P"] "1" = .ok stA ∧ stA.visited.Nodup ∧
      (∀ k, AzReach azEnvCyc ["P"] "1" k → k ∈ stA.visited)) ∧
    (∀ fuel key parent st0, key ∈ st0.visited →
      collectTicketInfo envCycJ (fuel + 1) key parent st0 = .ok ([], st0)) ∧
    (∀ fuel id st0, id ∈ st0.visited →
      collectWorkItem azEnvCyc ["P"] (fuel + 1) id st0 = .ok st0)) :=
  ⟨by decide, by decide,
   c1_theorem envCycJ "A" azEnvCyc ["P"] "1" (by decide) (by decide)⟩

/-- C2, amended: in any normally returning runs, the Jira traversal emits
pairwise-distinct ticket keys and exactly one description for every
reachable key with a successful truthy fetch, and the Azure traversal keeps
distinct description-map keys, stores a description for every reachable key
with a truthy effective body, and files a child id under at most one parent
key; the Jira hierarchy, by contrast, may repeat a child under two parents
(see the counterexample). -/
theorem c2_amended_theorem (envJ : JiraEnv) (rootJ : String) (xs : List TicketInfo)
    (stJ : JiraState) (envA : AzEnv) (projects : List String) (rootA : String)
    (stA : AzState)
    (hJ : jiraRun envJ rootJ = .ok (xs, stJ))
    (hA : azRun envA projects rootA = .ok stA) :
    (xs.map (fun i => i.key)).Nodup ∧
    (∀ k, JiraReach envJ rootJ k → jiraTruthy envJ k → ∃ i ∈ xs, i.key = k) ∧
    (stA.work_item_map.map Prod.fst).Nodup ∧
    (∀ k, AzReach envA projects rootA k → azEffTruthy envA projects k →
      ∃ t, List.lookup k stA.work_item_map = some t) ∧
    (∀ c p1 p2 l1 l2, (p1, l1) ∈ stA.hierarchy → (p2, l2) ∈ stA.hierarchy →
      c ∈ l1 → c ∈ l2 → p1 = p2) := by
  obtain ⟨hinvJ, hpostJ, hrootJ⟩ := jiraRunHoare hJ
  obtain ⟨hinvA, hpostA, hrootA⟩ := azRunHoare hA
  refine ⟨hpostJ.emitNodup, ?_, hinvA.mapKeysNodup, ?_, hinvA.oneParent⟩
  · intro k hk htr
    exact (hpostJ.newCov k (jiraReachVisited hpostJ hrootJ k hk)
      (List.not_mem_nil _)).1 htr
  · intro k hk htr
    exact (hpostA.newCov k (azReachVisited hpostA hrootA k hk)
      (List.not_mem_nil _)).1 htr

/-- C2 witness: the amended theorem applied to the Jira diamond (two paths
reach C) and the cyclic Azure organization, with both run hypotheses
discharged by evaluation. -/
theorem c2_witness :
    jiraRun envDiamondJ "A" = .ok (jiraOut envDiamondJ "A") ∧
    azRun azEnvCyc ["P"] "1" = .ok (azOut azEnvCyc ["P"] "1") ∧
    ((jiraOut envDiamondJ "A").1.map (fun i => i.key)).Nodup :=
  ⟨rfl, rfl,
   (c2_amended_theorem envDiamondJ "A" (jiraOut envDiamondJ "A").1
     (jiraOut envDiamondJ "A").2 azEnvCyc ["P"] "1" (azOut azEnvCyc ["P"] "1")
     rfl rfl).1⟩

/-- C3, amended: in any normally returning Jira run no ticket key is
requested twice (the calls list is duplicate-free), and in both scripts a
key already present in the cache is answered from the cache with zero
network calls and an unchanged state; the Azure fetcher, by contrast, may
request the same key once per project when no response is cached (see the
counterexample). -/
theorem c3_amended_theorem (envJ : JiraEnv) (rootJ : String) (xs : List TicketInfo)
    (stJ : JiraState) (hJ : jiraRun envJ rootJ = .ok (xs, stJ)) :
    stJ.calls.Nodup ∧
    (∀ (env : JiraEnv) (key : String) (st : JiraState) (j : Json),
      List.lookup key st.cache = some j → get_ticket_data env key st = (some j, st)) ∧
    (∀ (env : AzEnv) (p id : String) (st : AzState) (j : Json),
      List.lookup id st.cache = some j → azFetch env p id st = .ok (some j, st)) := by
  refine ⟨(jiraRunHoare hJ).1.callsNodup, ?_, ?_⟩
  · intro env key st j h
    unfold get_ticket_data
    rw [h]
  · intro env p id st j h
    unfold azFetch
    rw [h]

/-- C3 witness: the amended theorem applied to the Jira diamond run, whose
run hypothesis is discharged by evaluation. -/
theorem c3_witness :
    jiraRun envDiamondJ "A" = .ok (jiraOut envDiamondJ "A") ∧
    (jiraOut envDiamondJ "A").2.calls.Nodup :=
  ⟨rfl,
   (c3_amended_theorem envDiamondJ "A" (jiraOut envDiamondJ "A").1
     (jiraOut envDiamondJ "A").2 rfl).1⟩

/-- C5, amended: on well-formed instances both runs complete without error;
the root description is still produced whenever the root itself fetches
successfully; a key whose fetch fails is never described (Jira) and appears
neither in the description map nor in any hierarchy child list (Azure); the
Jira hierarchy, by contrast, can still record a failed child key (see the
counterexample). -/
theorem c5_amended_theorem (envJ : JiraEnv) (rootJ : String) (envA : AzEnv)
    (projects : List String) (rootA : String)
    (hwfJ : jiraEnvWF envJ = true) (hwfA : azEnvWF envA = true) :
    (∃ xs stJ, jiraRun envJ rootJ = .ok (xs, stJ) ∧
      (jiraTruthy envJ rootJ → ∃ i ∈ xs, i.key = rootJ) ∧
      (∀ k, ¬ jiraTruthy envJ k → ∀ i ∈ xs, i.key ≠ k)) ∧
    (∃ stA, azRun envA projects rootA = .ok stA ∧
      (azEffTruthy envA projects rootA →
        ∃ t, List.lookup rootA stA.work_item_map = some t) ∧
      (∀ k, ¬ azEffTruthy envA projects k →
        List.lookup k stA.work_item_map = none ∧
        ∀ pl ∈ stA.hierarchy, k ∉ pl.2)) := by
  refine ⟨?_, ?_⟩
  · obtain ⟨⟨xs, stJ⟩, hrun⟩ := jiraRunExists envJ rootJ hwfJ
    obtain ⟨hinv, hpost, hroot⟩ := jiraRunHoare hrun
    refine ⟨xs, stJ, hrun, ?_, ?_⟩
    · intro htr
      exact (hpost.newCov rootJ hroot (List.not_mem_nil _)).1 htr
    · intro k hk i hi he
      exact hk (he ▸ hpost.emitTruthy i hi)
  · obtain ⟨stA, hrun⟩ := azRunExists envA projects rootA hwfA
    obtain ⟨hinv, hpost, hroot⟩ := azRunHoare hrun
    refine ⟨stA, hrun, ?_, ?_⟩
    · intro htr
      exact (hpost.newCov rootA hroot (List.not_mem_nil _)).1 htr
    · intro k hk
      constructor
      · rcases hl : List.lookup k stA.work_item_map with _ | t
        · rfl
        · exact absurd (hinv.mapOK k t hl).2 hk
      · intro pl hpl hmem
        exact hk (hinv.hierMemOK pl hpl k hmem).2

/-- C5 witness: the amended theorem applied to the Jira instance whose only
child fetch fails and the Azure organization whose only forward relation
target is unserved, with both well-formedness hypotheses discharged by
evaluation. -/
theorem c5_witness :
    jiraEnvWF envChildFailJ = true ∧ azEnvWF azEnvChildFail = true ∧
    ((∃ xs stJ, jiraRun envChildFailJ "A" = .ok (xs, stJ) ∧
      (jiraTruthy envChildFailJ "A" → ∃ i ∈ xs, i.key = "A") ∧
      (∀ k, ¬ jiraTruthy envChildFailJ k → ∀ i ∈ xs, i.key ≠ k)) ∧
    (∃ stA, azRun azEnvChildFail ["P"] "1" = .ok stA ∧
      (azEffTruthy azEnvChildFail ["P"] "1" →
        ∃ t, List.lookup "1" stA.work_item_map = some t) ∧
      (∀ k, ¬ azEffTruthy azEnvChildFail ["P"] k →
        List.lookup k stA.work_item_map = none ∧
        ∀ pl ∈ stA.hierarchy, k ∉ pl.2))) :=
  ⟨by decide, by decide,
   c5_amended_theorem envChildFailJ "A" azEnvChildFail ["P"] "1"
     (by decide) (by decide)⟩

/-- C6, amended: when the root's effective fetch succeeds with no related
keys, the Azure hierarchy is exactly the None sentinel mapped to the
singleton root list, but the Jira hierarchy is empty: the Jira script has
no root sentinel entry at all (see the counterexample). -/
theorem c6_amended_theorem (envJ : JiraEnv) (rootJ : String) (xs : List TicketInfo)
    (stJ : JiraState) (envA : AzEnv) (projects : List String) (rootA : String)
    (stA : AzState)
    (hJ : jiraRun envJ rootJ = .ok (xs, stJ)) (hsJ : jiraSucc envJ rootJ = some [])
    (hA : azRun envA projects rootA = .ok stA)
    (hsA : azSucc envA projects rootA = some [])
    (hkA : azEffKey envA projects rootA = some none) :
    stJ.hierarchy = [] ∧ stA.hierarchy = [(none, [rootA])] :=
  ⟨jiraLoneRun hJ hsJ, azLoneRun hA hsA hkA⟩

/-- C6 witness: the amended theorem applied to the lone-root Jira instance
and the relation-free Azure root, with every hypothesis discharged by
evaluation. -/
theorem c6_witness :
    jiraSucc envLoneJ "A" = some [] ∧ azSucc azEnvLone ["P"] "7" = some [] ∧
    azEffKey azEnvLone ["P"] "7" = some none ∧
    ((jiraOut envLoneJ "A").2.hierarchy = [] ∧
      (azOut azEnvLone ["P"] "7").hierarchy = [(none, ["7"])]) :=
  ⟨rfl, rfl, rfl,
   c6_amended_theorem envLoneJ "A" (jiraOut envLoneJ "A").1
     (jiraOut envLoneJ "A").2 azEnvLone ["P"] "7" (azOut azEnvLone ["P"] "7")
     rfl rfl rfl rfl rfl⟩

/-- C7, amended: the Azure normalizer is total over record shapes — a record
with no fields entry and a fields dictionary with absent type, description
and acceptance-criteria entries each degrade to the fixed placeholder
description — and the Jira normalizer degrades every absent field below
fields to its placeholder; the Jira normalizer, by contrast, raises
KeyError when the fields entry itself is absent (see the counterexample). -/
theorem c7_amended_theorem (fkvs kvs : List (String × Json))
    (hsum : List.lookup "summary" fkvs = none)
    (hdesc : List.lookup "description" fkvs = none)
    (hstat : List.lookup "status" fkvs = none)
    (hac : List.lookup "customfield_10000" fkvs = none)
    (hcom : List.lookup "comment" fkvs = none)
    (hty : List.lookup "System.WorkItemType" kvs = none)
    (hd : List.lookup "System.Description" kvs = none)
    (hfac : find_key_containing.findCI kvs "AcceptanceCriteria" = none) :
    jiraNormalize (.obj [("fields", .obj fkvs)]) =
      .ok ⟨.str "No summary available", .str "No description available",
           .str "No status available", .str "No acceptance criteria available", []⟩ ∧
    azDescribe (.obj kvs) = .ok "Description: No description available" ∧
    azItemText (.obj [("other", .null)]) =
      .ok "Description: No description available" := by
  refine ⟨?_, ?_, rfl⟩
  · simp [jiraNormalize, pyIndex, pyGet, List.lookup, hsum, hdesc, hstat, hac, hcom,
      Json.truthy, Bind.bind, Except.bind, pure, Except.pure]
  · simp [azDescribe, pyGet, pyStr, find_key_containing, hty, hd, hfac, Json.isStrEq,
      Bind.bind, Except.bind, pure, Except.pure]

/-- C7 witness: the amended theorem applied to concrete field dictionaries
that miss every expected entry, with each lookup hypothesis discharged by
evaluation. -/
theorem c7_witness :
    jiraNormalize (.obj [("fields", .obj [("x", .null)])]) =
      .ok ⟨.str "No summary available", .str "No description available",
           .str "No status available", .str "No acceptance criteria available", []⟩ ∧
    azDescribe (.obj [("other", .str "v")]) =
      .ok "Description: No description available" :=
  ⟨(c7_amended_theorem [("x", .null)] [("other", .str "v")]
      rfl rfl rfl rfl rfl rfl rfl rfl).1,
   (c7_amended_theorem [("x", .null)] [("other", .str "v")]
      rfl rfl rfl rfl rfl rfl rfl rfl).2.1⟩

/-- C8: any fields dictionary whose work-item type is the string Bug and
whose case-insensitive ReproSteps search finds the string value Step 1
normalizes to a description beginning with (indeed equal to) the string
starting in Repro Steps: Step 1 — the markup-free value survives HTML
stripping and the final strip unchanged. -/
theorem c8_theorem (kvs : List (String × Json))
    (hty : List.lookup "System.WorkItemType" kvs = some (.str "Bug"))
    (hrepro : find_key_containing.findCI kvs "ReproSteps" = some (.str "Step 1")) :
    ∃ s, azItemText (.obj [("fields", .obj kvs)]) = .ok s ∧
      strStarts "Repro Steps: Step 1" s = true := by
  refine ⟨"Repro Steps: Step 1", ?_, by decide⟩
  simp [azItemText, azDescribe, pyGet, pyStr, pyOrOpt, pyOr, find_key_containing,
    List.lookup, hty, hrepro, Json.isStrEq, Json.truthy, Bind.bind, Except.bind,
    pure, Except.pure]
  rfl

/-- C8 witness: the theorem applied to the crafted record whose custom field
name contains ReproSteps, with both search hypotheses discharged by
evaluation. -/
theorem c8_witness :
    List.lookup "System.WorkItemType"
      [("System.WorkItemType", Json.str "Bug"),
       ("customfield_999_ReproSteps", Json.str "Step 1")] = some (.str "Bug") ∧
    find_key_containing.findCI
      [("System.WorkItemType", Json.str "Bug"),
       ("customfield_999_ReproSteps", Json.str "Step 1")] "ReproSteps" =
      some (.str "Step 1") ∧
    (∃ s, azItemText (.obj [("fields", .obj
      [("System.WorkItemType", Json.str "Bug"),
       ("customfield_999_ReproSteps", Json.str "Step 1")])]) = .ok s ∧
      strStarts "Repro Steps: Step 1" s = true) :=
  ⟨rfl, rfl,
   c8_theorem [("System.WorkItemType", Json.str "Bug"),
     ("customfield_999_ReproSteps", Json.str "Step 1")] rfl rfl⟩

/-- C9, amended: a workitem query parameter takes precedence over the path
exactly when parse_qs keeps a value for it: the first kept value is
returned; when parse_qs keeps none (the parameter absent or all its values
blank) the last path segment is returned if and only if it is all digits,
and every kept parse_qs value is nonblank — so a present but blank
workitem parameter behaves as absent (see the counterexample). -/
theorem c9_amended_theorem (u query name : String) :
    (∀ v rest, parse_qs_values (urlQuery u) "workitem" = v :: rest →
      extract_work_item_id u = some v) ∧
    (parse_qs_values (urlQuery u) "workitem" = [] →
      extract_work_item_id u =
        (if isDigits (lastSplit (urlPath u) '/') then some (lastSplit (urlPath u) '/')
         else none)) ∧
    (∀ v, v ∈ parse_qs_values query name → v.toList.isEmpty = false) := by
  refine ⟨?_, ?_, ?_⟩
  · intro v rest h
    unfold extract_work_item_id
    rw [h]
  · intro h
    unfold extract_work_item_id
    rw [h]
  · intro v hv
    unfold parse_qs_values at hv
    rw [List.mem_filterMap] at hv
    obtain ⟨pair, _, hp⟩ := hv
    split at hp
    · split at hp
      · next hcond =>
        injection hp with hp
        subst hp
        simpa using Bool.and_elim_right hcond
      · cases hp
    · cases hp

/-- C9 witness: the amended theorem applied to a URL with a nonblank
workitem parameter and to one with a numeric path and no query, each
hypothesis discharged by evaluation. -/
theorem c9_witness :
    extract_work_item_id "https://h/p?workitem=42" = some "42" ∧
    extract_work_item_id "https://h/abc/77" = some "77" :=
  ⟨( c9_amended_theorem "https://h/p?workitem=42" "" "").1 "42" [] rfl,
   (( c9_amended_theorem "https://h/abc/77" "" "").2.1 rfl).trans (by decide)⟩

/-- C10: in any normally returning Azure run every child list of the
hierarchy mapping is duplicate-free: the membership check before each
append keeps an id from occurring twice in the same list. -/
theorem c10_theorem (env : AzEnv) (projects : List String) (root : String)
    (st : AzState) (h : azRun env projects root = .ok st) :
    ∀ pl ∈ st.hierarchy, pl.2.Nodup :=
  fun pl hpl => (azRunHoare h).1.hierListsNodup pl hpl

/-- C10 witness: the theorem applied to the cyclic Azure organization, the
run hypothesis discharged by evaluation. -/
theorem c10_witness :
    azRun azEnvCyc ["P"] "1" = .ok (azOut azEnvCyc ["P"] "1") ∧
    ∀ pl ∈ (azOut azEnvCyc ["P"] "1").hierarchy, pl.2.Nodup :=
  ⟨rfl, c10_theorem azEnvCyc ["P"] "1" (azOut azEnvCyc ["P"] "1") rfl⟩
